import Mathlib

/-!
Verification development for the Dag_DB repository: a persistent DAG engine
with weighted MCMC tip selection over an ordered key-value store.

The embedding models the engine in `internal/dag/dag.go` (the current
iteration of the file): `AddNode`, `DeleteNode`, `checkCycle`,
`updateCumulativeWeights` (BFS ancestor closure + clamped delta writes),
`selectTipsMCMCInternal`, `isTipInternal`, `getChildren`, `getRandomNode`,
`weightedRandomChoice`, and the HTTP facade's `AddNode` error-to-status
mapping from `api/http`.

Floats (`float64` weights) are modelled as rationals; randomness
(from math/rand) is modelled by an explicit oracle of drawn values threaded
through the walker, so theorems quantify over every possible outcome of the
random draws. LevelDB iteration order is the list order of the store model.
-/

/-- Modelled from the spec: the vertex record of the `internal/store` package
(not under src/), §3 of the spec. Fields: `id`, `data`, `parents`, `weight`,
`cumulative_weight`. -/
structure Node where
  id : String
  data : String
  parents : List String
  weight : ℚ
  cumulativeWeight : ℚ
deriving DecidableEq, Repr

/-- Caller-supplied vertex for `AddNode`: `parents` is `Option` to model the
JSON distinction between a missing/null `parents` field (`nil` slice in Go)
and an explicitly empty array. The supplied `cumulativeWeight` is ignored by
the engine (overwritten before the first write). -/
structure InputNode where
  id : String
  data : String
  parents : Option (List String)
  weight : ℚ
  cumulativeWeight : ℚ
deriving DecidableEq, Repr

/-- Modelled from the spec: the Store (§4.1) is an ordered key-value mapping,
one record per vertex keyed by vertex ID. Iteration order is the list order. -/
abbrev Store := List Node

/-- Modelled from the spec: `get(id) → vertex | absent` (absent is not an
error). -/
def Store.get (s : Store) (id : String) : Option Node :=
  s.find? (fun n => decide (n.id = id))

/-- Modelled from the spec: `put(id, vertex)` is an upsert keyed by the
vertex's own ID. -/
def Store.put (s : Store) (node : Node) : Store :=
  if s.any (fun n => decide (n.id = node.id)) then
    s.map (fun n => if n.id = node.id then node else n)
  else s ++ [node]

/-- Modelled from the spec: `delete(id)` is idempotent point deletion. -/
def Store.del (s : Store) (id : String) : Store :=
  s.filter (fun n => decide (n.id ≠ id))

/-- Well-formedness of a store as LevelDB produces it: keys are unique. -/
abbrev StoreWF (s : Store) : Prop := (s.map Node.id).Nodup

/-- Engine configuration carried by the `DAG` struct: `maxParents` and
`defaultWeight` (dag.go lines 16-22). -/
structure Config where
  maxParents : ℤ
  defaultWeight : ℚ
deriving DecidableEq, Repr

/-- `dag.New` (dag.go lines 24-32): `maxParents <= 0` falls back to 2 and
`defaultWeight <= 0` falls back to 1.0. -/
def dagNew (maxParents : ℤ) (defaultWeight : ℚ) : Config :=
  { maxParents := if maxParents ≤ 0 then 2 else maxParents
    defaultWeight := if defaultWeight ≤ 0 then 1 else defaultWeight }

/-- Oracle for `math/rand`: the stream of values the walker would draw.
`ints` feeds `rand.Intn`, `floats` feeds `rand.Float64`. -/
structure RandSrc where
  ints : List ℕ
  floats : List ℚ
deriving DecidableEq, Repr

/-- Draw the next `rand.Intn` seed from the oracle. -/
def RandSrc.popInt (r : RandSrc) : ℕ × RandSrc :=
  match r.ints with
  | [] => (0, r)
  | n :: rest => (n, { r with ints := rest })

/-- Draw the next `rand.Float64` value from the oracle. -/
def RandSrc.popFloat (r : RandSrc) : ℚ × RandSrc :=
  match r.floats with
  | [] => (0, r)
  | q :: rest => (q, { r with floats := rest })

/-- `getNodeInternal` (dag.go lines 404-406): point read through the store. -/
def getNodeInternal (s : Store) (id : String) : Option Node :=
  Store.get s id

/-- `isTipInternal` (dag.go lines 415-432): iterate the store; `false` as soon
as some vertex lists `id` among its parents, else `true`. -/
def isTipInternal : Store → String → Bool
  | [], _ => true
  | n :: rest, id => if id ∈ n.parents then false else isTipInternal rest id

/-- `getChildren` (dag.go lines 358-376): all vertices listing `id` among
their parents, in iteration order. -/
def getChildren (s : Store) (id : String) : List Node :=
  s.filter (fun n => decide (id ∈ n.parents))

/-- Running total of `weightedRandomChoice` (dag.go lines 379-382):
`totalWeight += math.Max(n.CumulativeWeight, 0.0001)`. -/
def totalChoiceWeight (nodes : List Node) : ℚ :=
  nodes.foldl (fun acc n => acc + max n.cumulativeWeight (1 / 10000)) 0

/-- Inverse-CDF scan of `weightedRandomChoice` (dag.go lines 384-393): return
the first node whose cumulative sum reaches `r`, falling back to the last
node. -/
def weightedScan (r : ℚ) : ℚ → List Node → Option Node
  | _, [] => none
  | cumSum, n :: rest =>
    let c := cumSum + max n.cumulativeWeight (1 / 10000)
    if r ≤ c then some n
    else
      match rest with
      | [] => some n
      | _ :: _ => weightedScan r c rest

/-- `weightedRandomChoice` (dag.go lines 378-394) with the drawn
`rand.Float64` value `q`: `r := q * totalWeight`, then the inverse-CDF scan. -/
def weightedRandomChoice (nodes : List Node) (q : ℚ) : Option Node :=
  weightedScan (q * totalChoiceWeight nodes) 0 nodes

/-- Errors of tip selection: `"no nodes in DAG"` and `"no tips available"`
(dag.go lines 282, 319). -/
inductive TipErr where
  | emptyDAG
  | noTips
deriving DecidableEq, Repr

/-- `getRandomNode` (dag.go lines 336-356): collect all IDs, error on an
empty DAG, else read the node at a uniformly drawn index. The final `none`
branch is unreachable because the key was just collected from the store. -/
def getRandomNode (s : Store) (r : RandSrc) : Except TipErr (Node × RandSrc) :=
  let keys := s.map Node.id
  if keys.length = 0 then .error .emptyDAG
  else
    let (i, r') := r.popInt
    match getNodeInternal s (keys.getD (i % keys.length) "") with
    | some n => .ok (n, r')
    | none => .error .emptyDAG

/-- One random walk of the MCMC selector (dag.go lines 292-313), bounded by
`maxWalkSteps` steps: stop with the current ID at a tip (or at a node with no
children), otherwise descend to a weighted-randomly chosen child. Returns the
found tip, if any, plus the remaining oracle. -/
def walkSteps (s : Store) : ℕ → Node → RandSrc → Option String × RandSrc
  | 0, _, r => (none, r)
  | steps + 1, current, r =>
    if isTipInternal s current.id then (some current.id, r)
    else
      let children := getChildren s current.id
      if children.isEmpty then (some current.id, r)
      else
        let qr := r.popFloat
        match weightedRandomChoice children qr.1 with
        | some next => walkSteps s steps next qr.2
        | none => (none, qr.2)

/-- The attempts loop of `selectTipsMCMCInternal` (dag.go lines 286-315):
while fewer than `maxTips` tips are collected and attempts remain, run one
walk from a random start and insert the found tip into the set. -/
def tipLoop (s : Store) (maxTips : ℤ) (maxWalkSteps : ℕ) :
    ℕ → List String → RandSrc → Except TipErr (List String)
  | 0, tips, _ => .ok tips
  | attempts + 1, tips, r =>
    if (tips.length : ℤ) < maxTips then
      match getRandomNode s r with
      | .error e => .error e
      | .ok (startNode, r1) =>
        let fr := walkSteps s maxWalkSteps startNode r1
        let tips' :=
          match fr.1 with
          | some id => if id ∈ tips then tips else tips ++ [id]
          | none => tips
        tipLoop s maxTips maxWalkSteps attempts tips' fr.2
    else .ok tips

/-- `selectTipsMCMCInternal` (dag.go lines 268-327): default `maxTips` to
`maxParents` when non-positive, fail with `emptyDAG` on an empty store, run
`10 * maxTips` attempts of walks bounded by `max(10, N/2)` steps, and fail
with `noTips` when nothing was found. -/
def selectTipsMCMCInternal (cfg : Config) (s : Store) (maxTips0 : ℤ) (r : RandSrc) :
    Except TipErr (List String) :=
  let maxTips := if maxTips0 ≤ 0 then cfg.maxParents else maxTips0
  let maxAttempts := 10 * maxTips
  let nodeCount := s.length
  if nodeCount = 0 then .error .emptyDAG
  else
    let maxWalkSteps := max 10 (nodeCount / 2)
    match tipLoop s maxTips maxWalkSteps maxAttempts.toNat [] r with
    | .error e => .error e
    | .ok tips => if tips.isEmpty then .error .noTips else .ok tips

/-- `SelectTipsMCMC` (dag.go lines 262-266): the public entry takes the shared
lock and delegates to the internal selector. -/
def SelectTipsMCMC (cfg : Config) (s : Store) (maxTips : ℤ) (r : RandSrc) :
    Except TipErr (List String) :=
  selectTipsMCMCInternal cfg s maxTips r

/-- Failure kinds of `AddNode`, carrying the data interpolated into the Go
error strings. -/
inductive AddErr where
  | alreadyExists (id : String)
  | tooManyParents (id : String) (count : ℕ) (maxAllowed : ℤ)
  | cycleDetected (id : String)
  | parentMissing (parentID : String)
  | tipSelectFailed
deriving DecidableEq, Repr

/-- Failure kinds of `DeleteNode`. -/
inductive DeleteErr where
  | notFound (id : String)
  | hasChildren (id : String)
deriving DecidableEq, Repr

/-- `checkCycle` (dag.go lines 112-127): for each parent in order, reject a
self-parent, then reject a parent absent from the store. -/
def checkCycle (s : Store) (nodeID : String) : List String → Option AddErr
  | [] => none
  | parentID :: rest =>
    if parentID = nodeID then some (.cycleDetected nodeID)
    else
      match getNodeInternal s parentID with
      | none => some (.parentMissing parentID)
      | some _ => checkCycle s nodeID rest

/-- The guarded insertion of `updateCumulativeWeights` (dag.go lines 136-141,
156-161): append each ID not yet in the visited set to both the visited set
and the queue. -/
def pushNew : List String → List String → List String → List String × List String
  | visited, queue, [] => (visited, queue)
  | visited, queue, p :: rest =>
    if p ∈ visited then pushNew visited queue rest
    else pushNew (visited ++ [p]) (queue ++ [p]) rest

/-- All parent references stored anywhere in the store; every ID the BFS can
ever enqueue is among them. -/
def allParentIds (s : Store) : List String :=
  (s.map Node.parents).flatten

/-- The BFS loop of `updateCumulativeWeights` (dag.go lines 143-162), with an
explicit fuel: pop the queue head, skip it when absent from the store, else
enqueue its unseen parents. The fuel case is never hit when called with
`bfsFuel` (each iteration pops one element and every element is enqueued at
most once). -/
def bfsLoop (s : Store) : ℕ → List String → List String → List String
  | 0, visited, _ => visited
  | _ + 1, visited, [] => visited
  | fuel + 1, visited, current :: queue =>
    match getNodeInternal s current with
    | none => bfsLoop s fuel visited queue
    | some parentNode =>
      let vq := pushNew visited queue parentNode.parents
      bfsLoop s fuel vq.1 vq.2

/-- Fuel that provably suffices for the BFS: one iteration per seed plus one
per parent reference stored anywhere. -/
def bfsFuel (s : Store) (parents : List String) : ℕ :=
  parents.length + (allParentIds s).length + 1

/-- The ancestor set computed by `updateCumulativeWeights` (dag.go lines
134-162): seed the visited set and queue with the node's parents, then BFS
through `parents` edges. -/
def ancestorClosure (s : Store) (parents : List String) : List String :=
  let vq := pushNew [] [] parents
  bfsLoop s (bfsFuel s parents) vq.1 vq.2

/-- One ancestor update (dag.go lines 174-177): add the delta to the
cumulative weight and clamp at the ancestor's own intrinsic weight. -/
def clampNode (anc : Node) (delta : ℚ) : Node :=
  let cw := anc.cumulativeWeight + delta
  { anc with cumulativeWeight := if cw < anc.weight then anc.weight else cw }

/-- The write phase of `updateCumulativeWeights` (dag.go lines 164-183): for
each ancestor ID, read it, skip it if absent, else clamp-add the delta and
write it back. -/
def applyDeltas (s : Store) (ancestors : List String) (delta : ℚ) : Store :=
  ancestors.foldl
    (fun acc ancID =>
      match getNodeInternal acc ancID with
      | none => acc
      | some anc => Store.put acc (clampNode anc delta))
    s

/-- `updateCumulativeWeights` (dag.go lines 129-186): no-op for a parentless
node, else clamp-add the delta to every member of the BFS ancestor closure. -/
def updateCumulativeWeights (s : Store) (node : Node) (delta : ℚ) : Store :=
  if node.parents.isEmpty then s
  else applyDeltas s (ancestorClosure s node.parents) delta

/-- Weight normalization of `AddNode` (dag.go lines 74-76): a zero caller
weight takes the configured default. -/
def normalizeWeight (cfg : Config) (w : ℚ) : ℚ :=
  if w = 0 then cfg.defaultWeight else w

/-- The vertex `AddNode` persists (dag.go lines 74-78): the input fields with
the resolved parents, the normalized weight, and `cumulative_weight = weight`. -/
def mkNode (cfg : Config) (input : InputNode) (parents : List String) : Node :=
  { id := input.id, data := input.data, parents := parents
    weight := normalizeWeight cfg input.weight
    cumulativeWeight := normalizeWeight cfg input.weight }

/-- The tail of `AddNode` after parent resolution (dag.go lines 65-91):
`maxParents` cardinality check, cycle/existence check, weight normalization,
store the vertex, propagate its weight to the ancestor closure. -/
def addNodeWith (cfg : Config) (s : Store) (input : InputNode)
    (parents : List String) : Store × Option AddErr :=
  if 0 < cfg.maxParents ∧ cfg.maxParents < (parents.length : ℤ) then
    (s, some (.tooManyParents input.id parents.length cfg.maxParents))
  else
    match checkCycle s input.id parents with
    | some e => (s, some e)
    | none =>
      let node := mkNode cfg input parents
      (updateCumulativeWeights (Store.put s node) node node.weight, none)

/-- `AddNode` (dag.go lines 34-92): duplicate-ID check; MCMC parent selection
only when `parents` is absent (nil), tolerating exactly the empty-DAG error
(any other tip-selection error is returned); then the validated insertion.
Returns the resulting store and the error, if any. -/
def AddNode (cfg : Config) (s : Store) (r : RandSrc) (input : InputNode) :
    Store × Option AddErr :=
  match getNodeInternal s input.id with
  | some _ => (s, some (.alreadyExists input.id))
  | none =>
    match input.parents with
    | none =>
      match selectTipsMCMCInternal cfg s 2 r with
      | .error .emptyDAG => addNodeWith cfg s input []
      | .error .noTips => (s, some .tipSelectFailed)
      | .ok tips => addNodeWith cfg s input tips
    | some ps => addNodeWith cfg s input ps

/-- `DeleteNode` (dag.go lines 434-472): fail on an absent ID; fail when any
stored vertex lists `id` among its parents; else retract the node's weight
from its ancestor closure and delete the record. -/
def DeleteNode (s : Store) (id : String) : Store × Option DeleteErr :=
  match getNodeInternal s id with
  | none => (s, some (.notFound id))
  | some node =>
    if s.any (fun n => decide (id ∈ n.parents)) then (s, some (.hasChildren id))
    else
      let s1 := updateCumulativeWeights s node (-node.weight)
      (Store.del s1 id, none)

/-- A mutating engine call, as issued by the facade or the peer-sync task. -/
inductive EngineOp where
  | add (r : RandSrc) (input : InputNode)
  | del (id : String)

/-- Apply one engine call; a failed call leaves the store as the engine left
it (unchanged, since every validation failure precedes the first write). -/
def applyOp (cfg : Config) (s : Store) : EngineOp → Store
  | .add r input => (AddNode cfg s r input).1
  | .del id => (DeleteNode s id).1

/-- Run a sequence of engine calls from a starting store. -/
def runOps (cfg : Config) (s : Store) (ops : List EngineOp) : Store :=
  ops.foldl (applyOp cfg) s

/-- The Go error string attached to each `AddNode` failure (dag.go lines 47,
57, 66, 115, 123). -/
def addErrMessage : AddErr → String
  | .alreadyExists id => "node with ID " ++ id ++ " already exists"
  | .tooManyParents id count maxAllowed =>
      "node " ++ id ++ " has too many parents: " ++ toString count ++
        ", max allowed: " ++ toString maxAllowed
  | .cycleDetected id => "cycle detected: node " ++ id ++ " cannot be its own parent"
  | .parentMissing parentID => "parent " ++ parentID ++ " does not exist"
  | .tipSelectFailed => "failed to select parents: no tips available"

/-- Whether `sub` is a prefix of the character list, as `strings.HasPrefix`. -/
def startsWithChars : List Char → List Char → Bool
  | _, [] => true
  | [], _ :: _ => false
  | c :: cs, d :: ds => c = d && startsWithChars cs ds

/-- Substring search over character lists, as `strings.Contains`. -/
def containsChars : List Char → List Char → Bool
  | [], sub => sub.isEmpty
  | c :: cs, sub => startsWithChars (c :: cs) sub || containsChars cs sub

/-- `strings.Contains` on strings. -/
def strContains (s sub : String) : Bool :=
  containsChars s.toList sub.toList

/-- The HTTP status the facade's `AddNode` handler answers with (the current
handler iteration in `api/http`): 201 on success; 409 when the engine error
contains "already exists"; 400 when it contains "cycle detected" or "parent
does not exist"; 500 otherwise. -/
def handlerAddNodeStatus (cfg : Config) (s : Store) (r : RandSrc) (input : InputNode) : ℕ :=
  match (AddNode cfg s r input).2 with
  | none => 201
  | some e =>
    let msg := addErrMessage e
    if strContains msg "already exists" then 409
    else if strContains msg "cycle detected" || strContains msg "parent does not exist" then 400
    else 500

/-- One parent edge of the stored graph: `y` is listed among the parents of
the vertex stored at `x`. -/
def parentEdge (s : Store) (x y : String) : Prop :=
  ∃ n, getNodeInternal s x = some n ∧ y ∈ n.parents

/-- Reachability through parent edges (zero or more steps). -/
def Reaches (s : Store) (x y : String) : Prop :=
  Relation.ReflTransGen (parentEdge s) x y

lemma getNodeInternal_nil (x : String) : getNodeInternal [] x = none := rfl

lemma getNodeInternal_cons (a : Node) (s : Store) (x : String) :
    getNodeInternal (a :: s) x = if a.id = x then some a else getNodeInternal s x := by
  unfold getNodeInternal Store.get
  by_cases h : a.id = x <;> simp [List.find?_cons, h]

lemma getNodeInternal_eq_none_iff (s : Store) (x : String) :
    getNodeInternal s x = none ↔ ∀ n ∈ s, n.id ≠ x := by
  induction s with
  | nil => simp [getNodeInternal_nil]
  | cons a s ih =>
    rw [getNodeInternal_cons]
    by_cases h : a.id = x
    · simp [h]
    · simp [h, ih]

lemma getNodeInternal_mem {s : Store} {x : String} {n : Node}
    (h : getNodeInternal s x = some n) : n ∈ s ∧ n.id = x := by
  unfold getNodeInternal Store.get at h
  refine ⟨List.mem_of_find?_eq_some h, ?_⟩
  have := List.find?_some h
  simpa using this

lemma get_none_of_any_false {s : Store} {x : String}
    (h : s.any (fun m => decide (m.id = x)) = false) :
    getNodeInternal s x = none := by
  rw [getNodeInternal_eq_none_iff]
  intro n hn
  have := List.any_eq_false.mp h n hn
  simpa using this

lemma get_some_of_any_true {s : Store} {x : String}
    (h : s.any (fun m => decide (m.id = x)) = true) :
    ∃ m, getNodeInternal s x = some m := by
  induction s with
  | nil => simp at h
  | cons a s ih =>
    rw [getNodeInternal_cons]
    by_cases ha : a.id = x
    · exact ⟨a, by rw [if_pos ha]⟩
    · rw [if_neg ha]
      apply ih
      rw [List.any_cons] at h
      simpa [ha] using h

lemma any_id_of_get_some {s : Store} {x : String} {n : Node}
    (h : getNodeInternal s x = some n) :
    s.any (fun m => decide (m.id = x)) = true := by
  obtain ⟨hmem, hid⟩ := getNodeInternal_mem h
  exact List.any_eq_true.mpr ⟨n, hmem, by simpa using hid⟩

lemma put_of_present {s : Store} {n : Node}
    (h : s.any (fun m => decide (m.id = n.id)) = true) :
    Store.put s n = s.map (fun m => if m.id = n.id then n else m) := by
  rw [Store.put, if_pos h]

lemma put_of_absent {s : Store} {n : Node}
    (h : s.any (fun m => decide (m.id = n.id)) = false) :
    Store.put s n = s ++ [n] := by
  rw [Store.put, if_neg (by simp [h])]

lemma get_map_put_self (s : Store) (n : Node) :
    getNodeInternal (s.map (fun m => if m.id = n.id then n else m)) n.id =
      (getNodeInternal s n.id).map (fun _ => n) := by
  induction s with
  | nil => simp [getNodeInternal_nil]
  | cons a s ih =>
    by_cases h : a.id = n.id
    · rw [List.map_cons, if_pos h, getNodeInternal_cons, getNodeInternal_cons,
        if_pos h, if_pos rfl]
      rfl
    · rw [List.map_cons, if_neg h, getNodeInternal_cons, getNodeInternal_cons,
        if_neg h, if_neg h]
      exact ih

lemma get_map_put_other (s : Store) (n : Node) (x : String) (hx : x ≠ n.id) :
    getNodeInternal (s.map (fun m => if m.id = n.id then n else m)) x =
      getNodeInternal s x := by
  induction s with
  | nil => rfl
  | cons a s ih =>
    by_cases h : a.id = n.id
    · have hax : ¬ a.id = x := by rw [h]; exact fun hc => hx hc.symm
      have hnx : ¬ n.id = x := fun hc => hx hc.symm
      rw [List.map_cons, if_pos h, getNodeInternal_cons, getNodeInternal_cons,
        if_neg hnx, if_neg hax]
      exact ih
    · rw [List.map_cons, if_neg h, getNodeInternal_cons, getNodeInternal_cons]
      by_cases h2 : a.id = x
      · rw [if_pos h2, if_pos h2]
      · rw [if_neg h2, if_neg h2]
        exact ih

lemma get_append_single (s : Store) (n : Node) (x : String) :
    getNodeInternal (s ++ [n]) x =
      match getNodeInternal s x with
      | some m => some m
      | none => if n.id = x then some n else none := by
  induction s with
  | nil =>
    rw [List.nil_append, getNodeInternal_cons, getNodeInternal_nil]
  | cons a s ih =>
    rw [List.cons_append, getNodeInternal_cons, getNodeInternal_cons]
    by_cases h : a.id = x
    · rw [if_pos h, if_pos h]
    · rw [if_neg h, if_neg h]
      exact ih

lemma getNodeInternal_put (s : Store) (n : Node) (x : String) :
    getNodeInternal (Store.put s n) x =
      if x = n.id then some n else getNodeInternal s x := by
  cases hany : s.any (fun m => decide (m.id = n.id)) with
  | true =>
    rw [put_of_present hany]
    by_cases hx : x = n.id
    · obtain ⟨m, hm⟩ := get_some_of_any_true hany
      rw [if_pos hx, hx, get_map_put_self, hm]
      rfl
    · rw [if_neg hx, get_map_put_other s n x hx]
  | false =>
    rw [put_of_absent hany, get_append_single]
    by_cases hx : x = n.id
    · rw [if_pos hx, hx, get_none_of_any_false hany]
      simp
    · rw [if_neg hx]
      cases h : getNodeInternal s x with
      | some m => simp
      | none =>
        have hnx : ¬ n.id = x := fun hc => hx hc.symm
        simp [hnx]

lemma getNodeInternal_del (s : Store) (id x : String) :
    getNodeInternal (Store.del s id) x =
      if x = id then none else getNodeInternal s x := by
  induction s with
  | nil => by_cases hx : x = id <;> simp [Store.del, getNodeInternal_nil, hx]
  | cons a s ih =>
    rw [Store.del, List.filter_cons]
    by_cases ha : a.id = id
    · rw [if_neg (by simp [ha])]
      rw [show List.filter (fun n => decide (n.id ≠ id)) s = Store.del s id from rfl, ih]
      by_cases hx : x = id
      · rw [if_pos hx, if_pos hx]
      · have hax : ¬ a.id = x := by rw [ha]; exact fun hc => hx hc.symm
        rw [if_neg hx, if_neg hx, getNodeInternal_cons, if_neg hax]
    · rw [if_pos (by simp [ha])]
      rw [getNodeInternal_cons, getNodeInternal_cons]
      by_cases hax : a.id = x
      · have hx : ¬ x = id := fun hc => ha (hax.trans hc)
        rw [if_pos hax, if_neg hx, if_pos hax]
      · rw [if_neg hax,
          show List.filter (fun n => decide (n.id ≠ id)) s = Store.del s id from rfl, ih,
          if_neg hax]

lemma mem_of_wf_get {s : Store} (hWF : StoreWF s) (n : Node) :
    n ∈ s ↔ getNodeInternal s n.id = some n := by
  constructor
  · intro hmem
    induction s with
    | nil => cases hmem
    | cons a s ih =>
      have hWF2 : (List.map Node.id (a :: s)).Nodup := hWF
      rw [List.map_cons, List.nodup_cons] at hWF2
      rcases List.mem_cons.mp hmem with h | h
      · subst h
        rw [getNodeInternal_cons, if_pos rfl]
      · have hane : ¬ a.id = n.id := by
          intro hc
          exact hWF2.1 (hc ▸ List.mem_map.mpr ⟨n, h, rfl⟩)
        rw [getNodeInternal_cons, if_neg hane]
        exact ih hWF2.2 h
  · intro h
    exact (getNodeInternal_mem h).1

lemma put_map_id_of_get_some {s : Store} {n : Node}
    (h : s.any (fun m => decide (m.id = n.id)) = true) :
    (Store.put s n).map Node.id = s.map Node.id := by
  rw [put_of_present h, List.map_map]
  apply List.map_congr_left
  intro m _
  by_cases hm : m.id = n.id
  · simp [hm]
  · simp [hm]

lemma storeWF_put_absent {s : Store} {n : Node} (hWF : StoreWF s)
    (h : getNodeInternal s n.id = none) : StoreWF (Store.put s n) := by
  have hany : s.any (fun m => decide (m.id = n.id)) = false := by
    rw [List.any_eq_false]
    intro m hm
    have := (getNodeInternal_eq_none_iff s n.id).mp h m hm
    simpa using this
  have : (Store.put s n).map Node.id = s.map Node.id ++ [n.id] := by
    rw [put_of_absent hany]
    simp
  rw [StoreWF, this, List.nodup_append]
  refine ⟨hWF, List.nodup_singleton _, ?_⟩
  intro x hx
  have hall := (getNodeInternal_eq_none_iff s n.id).mp h
  obtain ⟨m, hm, rfl⟩ := List.mem_map.mp hx
  simp only [List.mem_singleton]
  exact fun hc => hall m hm hc

lemma clampNode_id (n : Node) (delta : ℚ) : (clampNode n delta).id = n.id := rfl

lemma clampNode_data (n : Node) (delta : ℚ) : (clampNode n delta).data = n.data := rfl

lemma clampNode_parents (n : Node) (delta : ℚ) : (clampNode n delta).parents = n.parents := rfl

lemma clampNode_weight (n : Node) (delta : ℚ) : (clampNode n delta).weight = n.weight := rfl

lemma clampNode_cumulative (n : Node) (delta : ℚ) :
    (clampNode n delta).cumulativeWeight = max (n.cumulativeWeight + delta) n.weight := by
  unfold clampNode
  dsimp only
  by_cases h : n.cumulativeWeight + delta < n.weight
  · rw [if_pos h, max_eq_right (le_of_lt h)]
  · rw [if_neg h, max_eq_left (not_lt.mp h)]

lemma clampNode_weight_le (n : Node) (delta : ℚ) :
    (clampNode n delta).weight ≤ (clampNode n delta).cumulativeWeight := by
  rw [clampNode_weight, clampNode_cumulative]
  exact le_max_right _ _

lemma wf_unique {s : Store} (hWF : StoreWF s) {m n : Node}
    (hm : m ∈ s) (hn : n ∈ s) (h : m.id = n.id) : m = n := by
  have h1 := (mem_of_wf_get hWF m).mp hm
  have h2 := (mem_of_wf_get hWF n).mp hn
  rw [h] at h1
  rw [h1] at h2
  exact Option.some_injective _ h2

lemma get_map_id_preserving (s : Store) (f : Node → Node)
    (hf : ∀ m, (f m).id = m.id) (x : String) :
    getNodeInternal (s.map f) x = (getNodeInternal s x).map f := by
  induction s with
  | nil => rfl
  | cons a s ih =>
    rw [List.map_cons, getNodeInternal_cons, getNodeInternal_cons, hf a]
    by_cases h : a.id = x
    · rw [if_pos h, if_pos h]
      rfl
    · rw [if_neg h, if_neg h]
      exact ih

lemma storeWF_map {s : Store} {f : Node → Node}
    (hf : ∀ m, (f m).id = m.id) (hWF : StoreWF s) : StoreWF (s.map f) := by
  have : (s.map f).map Node.id = s.map Node.id := by
    rw [List.map_map]
    exact List.map_congr_left (fun m _ => hf m)
  rw [StoreWF, this]
  exact hWF

lemma applyDeltas_eq_map (s : Store) (ids : List String) (delta : ℚ)
    (hWF : StoreWF s) (hids : ids.Nodup) :
    applyDeltas s ids delta =
      s.map (fun n => if n.id ∈ ids then clampNode n delta else n) := by
  induction ids generalizing s with
  | nil => simp [applyDeltas]
  | cons i ids ih =>
    have hnd := List.nodup_cons.mp hids
    have hstep : applyDeltas s (i :: ids) delta =
        applyDeltas
          (match getNodeInternal s i with
           | none => s
           | some anc => Store.put s (clampNode anc delta)) ids delta := rfl
    cases hget : getNodeInternal s i with
    | none =>
      rw [hstep, hget, ih s hWF hnd.2]
      apply List.map_congr_left
      intro m hm
      have hne := (getNodeInternal_eq_none_iff s i).mp hget m hm
      by_cases h : m.id ∈ ids
      · rw [if_pos h, if_pos (List.mem_cons.mpr (Or.inr h))]
      · rw [if_neg h, if_neg (fun hc => (List.mem_cons.mp hc).elim hne h)]
    | some anc =>
      obtain ⟨hanc_mem, hanc_id⟩ := getNodeInternal_mem hget
      have hput : Store.put s (clampNode anc delta) =
          s.map (fun m => if m.id = i then clampNode m delta else m) := by
        have hany : s.any (fun m => decide (m.id = (clampNode anc delta).id)) = true := by
          rw [clampNode_id, hanc_id]
          exact any_id_of_get_some hget
        rw [put_of_present hany]
        apply List.map_congr_left
        intro m hm
        rw [clampNode_id, hanc_id]
        by_cases h : m.id = i
        · rw [if_pos h, if_pos h, wf_unique hWF hm hanc_mem (h.trans hanc_id.symm)]
        · rw [if_neg h, if_neg h]
      have hWF2 : StoreWF (s.map (fun m => if m.id = i then clampNode m delta else m)) := by
        apply storeWF_map _ hWF
        intro m
        by_cases h : m.id = i
        · rw [if_pos h, clampNode_id]
        · rw [if_neg h]
      rw [hstep, hget]
      show applyDeltas (Store.put s (clampNode anc delta)) ids delta = _
      rw [hput, ih _ hWF2 hnd.2, List.map_map]
      apply List.map_congr_left
      intro m _
      simp only [Function.comp]
      by_cases h : m.id = i
      · rw [if_pos h]
        rw [if_neg (show (clampNode m delta).id ∈ ids → False by
          rw [clampNode_id, h]; exact hnd.1)]
        rw [if_pos (show m.id ∈ i :: ids by rw [h]; exact List.mem_cons_self i ids)]
      · rw [if_neg h]
        by_cases h2 : m.id ∈ ids
        · rw [if_pos h2, if_pos (List.mem_cons.mpr (Or.inr h2))]
        · rw [if_neg h2, if_neg (fun hc => (List.mem_cons.mp hc).elim h h2)]

lemma storeWF_applyDeltas {s : Store} {ids : List String} {delta : ℚ}
    (hWF : StoreWF s) (hids : ids.Nodup) : StoreWF (applyDeltas s ids delta) := by
  rw [applyDeltas_eq_map s ids delta hWF hids]
  apply storeWF_map _ hWF
  intro m
  by_cases h : m.id ∈ ids
  · rw [if_pos h, clampNode_id]
  · rw [if_neg h]

lemma get_applyDeltas (s : Store) (ids : List String) (delta : ℚ)
    (hWF : StoreWF s) (hids : ids.Nodup) (x : String) :
    getNodeInternal (applyDeltas s ids delta) x =
      (getNodeInternal s x).map (fun n => if n.id ∈ ids then clampNode n delta else n) := by
  rw [applyDeltas_eq_map s ids delta hWF hids]
  apply get_map_id_preserving
  intro m
  by_cases h : m.id ∈ ids
  · rw [if_pos h, clampNode_id]
  · rw [if_neg h]

lemma pushNew_visited_mono : ∀ (gps visited queue : List String),
    visited ⊆ (pushNew visited queue gps).1 := by
  intro gps
  induction gps with
  | nil => intro visited queue; simp [pushNew]
  | cons p rest ih =>
    intro visited queue
    by_cases h : p ∈ visited
    · simp only [pushNew, if_pos h]
      exact ih visited queue
    · simp only [pushNew, if_neg h]
      exact fun x hx => ih _ _ (List.mem_append.mpr (Or.inl hx))

lemma pushNew_queue_mono : ∀ (gps visited queue : List String),
    queue ⊆ (pushNew visited queue gps).2 := by
  intro gps
  induction gps with
  | nil => intro visited queue; simp [pushNew]
  | cons p rest ih =>
    intro visited queue
    by_cases h : p ∈ visited
    · simp only [pushNew, if_pos h]
      exact ih visited queue
    · simp only [pushNew, if_neg h]
      exact fun x hx => ih _ _ (List.mem_append.mpr (Or.inl hx))

lemma pushNew_visited_sub : ∀ (gps visited queue : List String),
    ∀ x ∈ (pushNew visited queue gps).1, x ∈ visited ∨ x ∈ gps := by
  intro gps
  induction gps with
  | nil => intro visited queue x hx; simp [pushNew] at hx; exact Or.inl hx
  | cons p rest ih =>
    intro visited queue x hx
    by_cases h : p ∈ visited
    · simp only [pushNew, if_pos h] at hx
      rcases ih _ _ x hx with h1 | h1
      · exact Or.inl h1
      · exact Or.inr (List.mem_cons.mpr (Or.inr h1))
    · simp only [pushNew, if_neg h] at hx
      rcases ih _ _ x hx with h1 | h1
      · rcases List.mem_append.mp h1 with h2 | h2
        · exact Or.inl h2
        · exact Or.inr (List.mem_cons.mpr (Or.inl (List.mem_singleton.mp h2)))
      · exact Or.inr (List.mem_cons.mpr (Or.inr h1))

lemma pushNew_queue_sub : ∀ (gps visited queue : List String),
    ∀ x ∈ (pushNew visited queue gps).2, x ∈ queue ∨ x ∈ gps := by
  intro gps
  induction gps with
  | nil => intro visited queue x hx; simp [pushNew] at hx; exact Or.inl hx
  | cons p rest ih =>
    intro visited queue x hx
    by_cases h : p ∈ visited
    · simp only [pushNew, if_pos h] at hx
      rcases ih _ _ x hx with h1 | h1
      · exact Or.inl h1
      · exact Or.inr (List.mem_cons.mpr (Or.inr h1))
    · simp only [pushNew, if_neg h] at hx
      rcases ih _ _ x hx with h1 | h1
      · rcases List.mem_append.mp h1 with h2 | h2
        · exact Or.inl h2
        · exact Or.inr (List.mem_cons.mpr (Or.inl (List.mem_singleton.mp h2)))
      · exact Or.inr (List.mem_cons.mpr (Or.inr h1))

lemma pushNew_gps_sub : ∀ (gps visited queue : List String),
    ∀ x ∈ gps, x ∈ (pushNew visited queue gps).1 := by
  intro gps
  induction gps with
  | nil => intro visited queue x hx; cases hx
  | cons p rest ih =>
    intro visited queue x hx
    by_cases h : p ∈ visited
    · simp only [pushNew, if_pos h]
      rcases List.mem_cons.mp hx with h1 | h1
      · exact pushNew_visited_mono rest visited queue (h1 ▸ h)
      · exact ih _ _ x h1
    · simp only [pushNew, if_neg h]
      rcases List.mem_cons.mp hx with h1 | h1
      · exact pushNew_visited_mono rest _ _
          (List.mem_append.mpr (Or.inr (List.mem_singleton.mpr h1)))
      · exact ih _ _ x h1

lemma pushNew_queue_in_visited : ∀ (gps visited queue : List String),
    (∀ x ∈ queue, x ∈ visited) →
    ∀ x ∈ (pushNew visited queue gps).2, x ∈ (pushNew visited queue gps).1 := by
  intro gps
  induction gps with
  | nil => intro visited queue hq x hx; simp [pushNew] at hx ⊢; exact hq x hx
  | cons p rest ih =>
    intro visited queue hq x hx
    by_cases h : p ∈ visited
    · simp only [pushNew, if_pos h] at hx ⊢
      exact ih _ _ hq x hx
    · simp only [pushNew, if_neg h] at hx ⊢
      refine ih _ _ ?_ x hx
      intro y hy
      rcases List.mem_append.mp hy with h1 | h1
      · exact List.mem_append.mpr (Or.inl (hq y h1))
      · exact List.mem_append.mpr (Or.inr h1)

lemma pushNew_fresh_in_queue : ∀ (gps visited queue : List String),
    ∀ x ∈ gps, x ∉ visited → x ∈ (pushNew visited queue gps).2 := by
  intro gps
  induction gps with
  | nil => intro visited queue x hx; cases hx
  | cons p rest ih =>
    intro visited queue x hx hxv
    by_cases h : p ∈ visited
    · simp only [pushNew, if_pos h]
      rcases List.mem_cons.mp hx with h1 | h1
      · exact absurd (h1 ▸ h) hxv
      · exact ih _ _ x h1 hxv
    · simp only [pushNew, if_neg h]
      rcases List.mem_cons.mp hx with h1 | h1
      · exact pushNew_queue_mono rest _ _
          (List.mem_append.mpr (Or.inr (List.mem_singleton.mpr h1)))
      · by_cases h2 : x ∈ visited ++ [p]
        · rcases List.mem_append.mp h2 with h3 | h3
          · exact absurd h3 hxv
          · exact pushNew_queue_mono rest _ _
              (List.mem_append.mpr (Or.inr h3))
        · exact ih _ _ x h1 h2

lemma pushNew_nodup_visited : ∀ (gps visited queue : List String),
    visited.Nodup → (pushNew visited queue gps).1.Nodup := by
  intro gps
  induction gps with
  | nil => intro visited queue h; simpa [pushNew] using h
  | cons p rest ih =>
    intro visited queue h
    by_cases hp : p ∈ visited
    · simp only [pushNew, if_pos hp]
      exact ih _ _ h
    · simp only [pushNew, if_neg hp]
      refine ih _ _ ?_
      rw [List.nodup_append]
      exact ⟨h, List.nodup_singleton _, by
        intro x hx
        simp only [List.mem_singleton]
        exact fun hc => hp (hc ▸ hx)⟩

lemma pushNew_measure (avail : Finset String) : ∀ (gps visited queue : List String),
    (∀ g ∈ gps, g ∈ avail) →
    (pushNew visited queue gps).2.length +
      (avail \ (pushNew visited queue gps).1.toFinset).card =
    queue.length + (avail \ visited.toFinset).card := by
  intro gps
  induction gps with
  | nil => intro visited queue _; simp [pushNew]
  | cons p rest ih =>
    intro visited queue hg
    by_cases h : p ∈ visited
    · simp only [pushNew, if_pos h]
      exact ih _ _ (fun g hgm => hg g (List.mem_cons.mpr (Or.inr hgm)))
    · simp only [pushNew, if_neg h]
      rw [ih _ _ (fun g hgm => hg g (List.mem_cons.mpr (Or.inr hgm)))]
      have htf : (visited ++ [p]).toFinset = insert p visited.toFinset := by
        ext x
        simp [List.mem_toFinset, or_comm]
      have hmem : p ∈ avail \ visited.toFinset := by
        rw [Finset.mem_sdiff]
        exact ⟨hg p (List.mem_cons_self p rest), fun hc => h (List.mem_toFinset.mp hc)⟩
      have herase : avail \ (visited ++ [p]).toFinset = (avail \ visited.toFinset).erase p := by
        rw [htf]
        ext x
        simp only [Finset.mem_sdiff, Finset.mem_insert, Finset.mem_erase]
        tauto
      rw [herase, Finset.card_erase_of_mem hmem, List.length_append]
      have hpos : 0 < (avail \ visited.toFinset).card := Finset.card_pos.mpr ⟨p, hmem⟩
      simp only [List.length_singleton]
      omega

lemma bfsLoop_visited_mono (s : Store) : ∀ (fuel : ℕ) (visited queue : List String),
    visited ⊆ bfsLoop s fuel visited queue := by
  intro fuel
  induction fuel with
  | zero => intro visited queue; simp [bfsLoop]
  | succ fuel ih =>
    intro visited queue
    cases queue with
    | nil => simp [bfsLoop]
    | cons current queue =>
      cases hget : getNodeInternal s current with
      | none =>
        simp only [bfsLoop, hget]
        exact ih visited queue
      | some n =>
        simp only [bfsLoop, hget]
        exact fun x hx => ih _ _ (pushNew_visited_mono n.parents visited queue hx)

lemma bfsLoop_sound (s : Store) (R : String → Prop)
    (hR : ∀ x y n, R x → getNodeInternal s x = some n → y ∈ n.parents → R y) :
    ∀ (fuel : ℕ) (visited queue : List String),
      (∀ x ∈ visited, R x) → (∀ x ∈ queue, R x) →
      ∀ y ∈ bfsLoop s fuel visited queue, R y := by
  intro fuel
  induction fuel with
  | zero => intro visited queue hv _ y hy; simp [bfsLoop] at hy; exact hv y hy
  | succ fuel ih =>
    intro visited queue hv hq y hy
    cases queue with
    | nil =>
      simp only [bfsLoop] at hy
      exact hv y hy
    | cons current queue =>
      cases hget : getNodeInternal s current with
      | none =>
        simp only [bfsLoop, hget] at hy
        exact ih visited queue hv (fun x hx => hq x (List.mem_cons.mpr (Or.inr hx))) y hy
      | some n =>
        simp only [bfsLoop, hget] at hy
        have hcur : R current := hq current (List.mem_cons_self current queue)
        refine ih _ _ ?_ ?_ y hy
        · intro x hx
          rcases pushNew_visited_sub n.parents visited queue x hx with h | h
          · exact hv x h
          · exact hR current x n hcur hget h
        · intro x hx
          rcases pushNew_queue_sub n.parents visited queue x hx with h | h
          · exact hq x (List.mem_cons.mpr (Or.inr h))
          · exact hR current x n hcur hget h

lemma bfsLoop_nodup (s : Store) : ∀ (fuel : ℕ) (visited queue : List String),
    visited.Nodup → (bfsLoop s fuel visited queue).Nodup := by
  intro fuel
  induction fuel with
  | zero => intro visited queue h; simpa [bfsLoop] using h
  | succ fuel ih =>
    intro visited queue h
    cases queue with
    | nil => simpa [bfsLoop] using h
    | cons current queue =>
      cases hget : getNodeInternal s current with
      | none =>
        simp only [bfsLoop, hget]
        exact ih visited queue h
      | some n =>
        simp only [bfsLoop, hget]
        exact ih _ _ (pushNew_nodup_visited n.parents visited queue h)

lemma parents_sub_allParentIds {s : Store} {n : Node} (hn : n ∈ s) :
    ∀ p ∈ n.parents, p ∈ allParentIds s := by
  intro p hp
  unfold allParentIds
  exact List.mem_flatten.mpr ⟨n.parents, List.mem_map.mpr ⟨n, hn, rfl⟩, hp⟩

lemma bfsLoop_closed (s : Store) (avail : Finset String)
    (havail : ∀ p ∈ allParentIds s, p ∈ avail) :
    ∀ (fuel : ℕ) (visited queue : List String),
      (∀ x ∈ queue, x ∈ visited) →
      (∀ x ∈ queue, x ∈ avail) →
      (∀ x ∈ visited, x ∉ queue →
        ∀ n y, getNodeInternal s x = some n → y ∈ n.parents → y ∈ visited) →
      queue.length + (avail \ visited.toFinset).card < fuel →
      ∀ x ∈ bfsLoop s fuel visited queue,
        ∀ n y, getNodeInternal s x = some n → y ∈ n.parents →
          y ∈ bfsLoop s fuel visited queue := by
  intro fuel
  induction fuel with
  | zero => intro visited queue _ _ _ hfuel; omega
  | succ fuel ih =>
    intro visited queue hq hqav hproc hfuel
    cases queue with
    | nil =>
      simp only [bfsLoop]
      intro x hx n y hget hy
      exact hproc x hx (List.not_mem_nil x) n y hget hy
    | cons current queue =>
      cases hget0 : getNodeInternal s current with
      | none =>
        simp only [bfsLoop, hget0]
        refine ih visited queue
          (fun x hx => hq x (List.mem_cons.mpr (Or.inr hx)))
          (fun x hx => hqav x (List.mem_cons.mpr (Or.inr hx)))
          ?_ ?_
        · intro x hxv hxq n y hgn hyn
          by_cases hxc : x = current
          · rw [hxc, hget0] at hgn
            cases hgn
          · exact hproc x hxv
              (fun hc => (List.mem_cons.mp hc).elim hxc hxq) n y hgn hyn
        · rw [List.length_cons] at hfuel
          omega
      | some n =>
        simp only [bfsLoop, hget0]
        have hnmem : n ∈ s := (getNodeInternal_mem hget0).1
        have hpav : ∀ g ∈ n.parents, g ∈ avail :=
          fun g hg => havail g (parents_sub_allParentIds hnmem g hg)
        refine ih _ _ ?_ ?_ ?_ ?_
        · exact pushNew_queue_in_visited n.parents visited queue
            (fun x hx => hq x (List.mem_cons.mpr (Or.inr hx)))
        · intro x hx
          rcases pushNew_queue_sub n.parents visited queue x hx with h | h
          · exact hqav x (List.mem_cons.mpr (Or.inr h))
          · exact hpav x h
        · intro x hxv hxq m y hgm hym
          by_cases hxvis : x ∈ visited
          · by_cases hxc : x = current
            · have : m = n := by
                rw [hxc, hget0] at hgm
                exact Option.some_injective _ hgm.symm
              exact pushNew_gps_sub n.parents visited queue y (this ▸ hym)
            · have hxq0 : x ∉ queue :=
                fun hc => hxq (pushNew_queue_mono n.parents visited queue hc)
              have := hproc x hxvis
                (fun hc => (List.mem_cons.mp hc).elim hxc hxq0) m y hgm hym
              exact pushNew_visited_mono n.parents visited queue this
          · rcases pushNew_visited_sub n.parents visited queue x hxv with h | h
            · exact absurd h hxvis
            · exact absurd (pushNew_fresh_in_queue n.parents visited queue x h hxvis) hxq
        · rw [pushNew_measure avail n.parents visited queue hpav]
          rw [List.length_cons] at hfuel
          omega

lemma pushNew_eq_vq : ∀ (gps v q : List String), v = q →
    (pushNew v q gps).1 = (pushNew v q gps).2 := by
  intro gps
  induction gps with
  | nil => intro v q h; simpa [pushNew] using h
  | cons p rest ih =>
    intro v q h
    by_cases hp : p ∈ v
    · simp only [pushNew, if_pos hp]
      exact ih v q h
    · simp only [pushNew, if_neg hp]
      exact ih _ _ (by rw [h])

lemma ancestorClosure_nodup (s : Store) (parents : List String) :
    (ancestorClosure s parents).Nodup := by
  unfold ancestorClosure
  exact bfsLoop_nodup s _ _ _ (pushNew_nodup_visited parents [] [] List.nodup_nil)

lemma parents_subset_closure (s : Store) (parents : List String) :
    ∀ p ∈ parents, p ∈ ancestorClosure s parents := by
  intro p hp
  unfold ancestorClosure
  exact bfsLoop_visited_mono s _ _ _ (pushNew_gps_sub parents [] [] p hp)

lemma ancestorClosure_sound (s : Store) (parents : List String) :
    ∀ x ∈ ancestorClosure s parents, ∃ p ∈ parents, Reaches s p x := by
  unfold ancestorClosure
  refine bfsLoop_sound s (fun x => ∃ p ∈ parents, Reaches s p x) ?_ _ _ _ ?_ ?_
  · rintro x y n ⟨p, hp, hreach⟩ hget hy
    exact ⟨p, hp, Relation.ReflTransGen.tail hreach ⟨n, hget, hy⟩⟩
  · intro x hx
    rcases pushNew_visited_sub parents [] [] x hx with h | h
    · cases h
    · exact ⟨x, h, Relation.ReflTransGen.refl⟩
  · intro x hx
    rcases pushNew_queue_sub parents [] [] x hx with h | h
    · cases h
    · exact ⟨x, h, Relation.ReflTransGen.refl⟩

lemma ancestorClosure_closed (s : Store) (parents : List String) :
    ∀ x ∈ ancestorClosure s parents, ∀ n y,
      getNodeInternal s x = some n → y ∈ n.parents → y ∈ ancestorClosure s parents := by
  unfold ancestorClosure
  have hq0 : ∀ x ∈ (pushNew [] [] parents).2, x ∈ (pushNew [] [] parents).1 :=
    pushNew_queue_in_visited parents [] [] (fun x hx => by cases hx)
  refine bfsLoop_closed s ((allParentIds s).toFinset ∪ parents.toFinset) ?_ _ _ _ hq0 ?_ ?_ ?_
  · intro p hp
    exact Finset.mem_union.mpr (Or.inl (List.mem_toFinset.mpr hp))
  · intro x hx
    rcases pushNew_queue_sub parents [] [] x hx with h | h
    · cases h
    · exact Finset.mem_union.mpr (Or.inr (List.mem_toFinset.mpr h))
  · intro x hxv hxq
    exact absurd (pushNew_eq_vq parents [] [] rfl ▸ hxv) hxq
  · have hinit := pushNew_measure ((allParentIds s).toFinset ∪ parents.toFinset)
      parents [] [] (fun g hg => Finset.mem_union.mpr (Or.inr (List.mem_toFinset.mpr hg)))
    simp only [List.length_nil, List.toFinset_nil, Finset.sdiff_empty, Nat.zero_add] at hinit
    rw [hinit]
    have h1 : ((allParentIds s).toFinset ∪ parents.toFinset).card ≤
        (allParentIds s).toFinset.card + parents.toFinset.card := Finset.card_union_le _ _
    have h2 := List.toFinset_card_le (allParentIds s)
    have h3 := List.toFinset_card_le parents
    unfold bfsFuel
    omega

lemma ancestorClosure_spec (s : Store) (parents : List String) (x : String) :
    x ∈ ancestorClosure s parents ↔ ∃ p ∈ parents, Reaches s p x := by
  constructor
  · exact ancestorClosure_sound s parents x
  · rintro ⟨p, hp, hreach⟩
    induction hreach with
    | refl => exact parents_subset_closure s parents p hp
    | tail hab hbc ih =>
      obtain ⟨n, hget, hyn⟩ := hbc
      exact ancestorClosure_closed s parents _ ih n _ hget hyn

lemma allParentIds_map (s : Store) (f : Node → Node)
    (hfp : ∀ m, (f m).parents = m.parents) :
    allParentIds (s.map f) = allParentIds s := by
  unfold allParentIds
  rw [List.map_map]
  congr 1
  exact List.map_congr_left (fun m _ => hfp m)

lemma bfsLoop_map (s : Store) (f : Node → Node)
    (hfi : ∀ m, (f m).id = m.id) (hfp : ∀ m, (f m).parents = m.parents) :
    ∀ (fuel : ℕ) (visited queue : List String),
      bfsLoop (s.map f) fuel visited queue = bfsLoop s fuel visited queue := by
  intro fuel
  induction fuel with
  | zero => intro visited queue; simp [bfsLoop]
  | succ fuel ih =>
    intro visited queue
    cases queue with
    | nil => simp [bfsLoop]
    | cons current queue =>
      have hmap : getNodeInternal (s.map f) current = (getNodeInternal s current).map f :=
        get_map_id_preserving s f hfi current
      cases hget : getNodeInternal s current with
      | none =>
        rw [hget] at hmap
        simp only [bfsLoop, hmap, hget, Option.map_none', ih]
      | some n =>
        rw [hget] at hmap
        simp only [bfsLoop, hmap, hget, Option.map_some', hfp n, ih]

lemma ancestorClosure_map (s : Store) (f : Node → Node)
    (hfi : ∀ m, (f m).id = m.id) (hfp : ∀ m, (f m).parents = m.parents)
    (parents : List String) :
    ancestorClosure (s.map f) parents = ancestorClosure s parents := by
  unfold ancestorClosure bfsFuel
  rw [allParentIds_map s f hfp, bfsLoop_map s f hfi hfp]

lemma parentEdge_map_iff (s : Store) (f : Node → Node)
    (hfi : ∀ m, (f m).id = m.id) (hfp : ∀ m, (f m).parents = m.parents)
    (x y : String) :
    parentEdge (s.map f) x y ↔ parentEdge s x y := by
  unfold parentEdge
  rw [get_map_id_preserving s f hfi x]
  constructor
  · rintro ⟨n, hget, hy⟩
    obtain ⟨m, hm, rfl⟩ := Option.map_eq_some'.mp hget
    exact ⟨m, hm, hfp m ▸ hy⟩
  · rintro ⟨n, hget, hy⟩
    exact ⟨f n, by rw [hget]; rfl, (hfp n).symm ▸ hy⟩

lemma reaches_map_iff (s : Store) (f : Node → Node)
    (hfi : ∀ m, (f m).id = m.id) (hfp : ∀ m, (f m).parents = m.parents)
    (x y : String) :
    Reaches (s.map f) x y ↔ Reaches s x y := by
  unfold Reaches
  constructor
  · exact Relation.ReflTransGen.mono (fun a b h => (parentEdge_map_iff s f hfi hfp a b).mp h)
  · exact Relation.ReflTransGen.mono (fun a b h => (parentEdge_map_iff s f hfi hfp a b).mpr h)

lemma addNodeWith_error {cfg : Config} {s : Store} {input : InputNode}
    {parents : List String} {s' : Store} {e : AddErr}
    (h : addNodeWith cfg s input parents = (s', some e)) : s' = s := by
  unfold addNodeWith at h
  split at h
  · exact (congrArg Prod.fst h).symm
  · split at h
    · exact (congrArg Prod.fst h).symm
    · have := congrArg Prod.snd h
      simp at this

lemma addNodeWith_success {cfg : Config} {s : Store} {input : InputNode}
    {parents : List String} {s' : Store}
    (h : addNodeWith cfg s input parents = (s', none)) :
    ¬(0 < cfg.maxParents ∧ cfg.maxParents < (parents.length : ℤ)) ∧
    checkCycle s input.id parents = none ∧
    s' = updateCumulativeWeights (Store.put s (mkNode cfg input parents))
          (mkNode cfg input parents) (mkNode cfg input parents).weight := by
  unfold addNodeWith at h
  split at h
  · have := congrArg Prod.snd h
    simp at this
  · rename_i hcard
    split at h
    · have := congrArg Prod.snd h
      simp at this
    · rename_i hcyc
      exact ⟨hcard, hcyc, (congrArg Prod.fst h).symm⟩

lemma AddNode_error_store {cfg : Config} {s : Store} {r : RandSrc}
    {input : InputNode} {s' : Store} {e : AddErr}
    (h : AddNode cfg s r input = (s', some e)) : s' = s := by
  unfold AddNode at h
  cases hget : getNodeInternal s input.id with
  | some m =>
    rw [hget] at h
    exact (congrArg Prod.fst h).symm
  | none =>
    rw [hget] at h
    simp only at h
    cases hps : input.parents with
    | none =>
      rw [hps] at h
      simp only at h
      cases hsel : selectTipsMCMCInternal cfg s 2 r with
      | error te =>
        rw [hsel] at h
        cases te with
        | emptyDAG => exact addNodeWith_error h
        | noTips => exact (congrArg Prod.fst h).symm
      | ok tips =>
        rw [hsel] at h
        exact addNodeWith_error h
    | some ps =>
      rw [hps] at h
      exact addNodeWith_error h

lemma AddNode_success_decompose {cfg : Config} {s : Store} {r : RandSrc}
    {input : InputNode} {s' : Store}
    (h : AddNode cfg s r input = (s', none)) :
    getNodeInternal s input.id = none ∧
    ∃ parents, addNodeWith cfg s input parents = (s', none) := by
  unfold AddNode at h
  cases hget : getNodeInternal s input.id with
  | some m =>
    rw [hget] at h
    have := congrArg Prod.snd h
    simp at this
  | none =>
    rw [hget] at h
    simp only at h
    refine ⟨rfl, ?_⟩
    cases hps : input.parents with
    | none =>
      rw [hps] at h
      simp only at h
      cases hsel : selectTipsMCMCInternal cfg s 2 r with
      | error te =>
        rw [hsel] at h
        cases te with
        | emptyDAG => exact ⟨[], h⟩
        | noTips =>
          have := congrArg Prod.snd h
          simp at this
      | ok tips =>
        rw [hsel] at h
        exact ⟨tips, h⟩
    | some ps =>
      rw [hps] at h
      exact ⟨ps, h⟩

lemma updateCumulativeWeights_nilParents (s : Store) (node : Node) (delta : ℚ)
    (h : node.parents = []) : updateCumulativeWeights s node delta = s := by
  unfold updateCumulativeWeights
  rw [if_pos (by simp [h])]

lemma get_updateCumulativeWeights (s : Store) (node : Node) (delta : ℚ)
    (hWF : StoreWF s) (hne : node.parents ≠ []) (x : String) :
    getNodeInternal (updateCumulativeWeights s node delta) x =
      (getNodeInternal s x).map
        (fun n => if n.id ∈ ancestorClosure s node.parents then clampNode n delta else n) := by
  unfold updateCumulativeWeights
  rw [if_neg (by simpa using hne)]
  exact get_applyDeltas s _ delta hWF (ancestorClosure_nodup s node.parents) x

lemma updateCumulativeWeights_eq_map (s : Store) (node : Node) (delta : ℚ)
    (hWF : StoreWF s) (hne : node.parents ≠ []) :
    updateCumulativeWeights s node delta =
      s.map (fun n => if n.id ∈ ancestorClosure s node.parents then clampNode n delta else n) := by
  unfold updateCumulativeWeights
  rw [if_neg (by simpa using hne)]
  exact applyDeltas_eq_map s _ delta hWF (ancestorClosure_nodup s node.parents)

lemma storeWF_updateCumulativeWeights {s : Store} (node : Node) (delta : ℚ)
    (hWF : StoreWF s) : StoreWF (updateCumulativeWeights s node delta) := by
  unfold updateCumulativeWeights
  split
  · exact hWF
  · exact storeWF_applyDeltas hWF (ancestorClosure_nodup s node.parents)

lemma storeWF_del {s : Store} (id : String) (hWF : StoreWF s) :
    StoreWF (Store.del s id) := by
  have hsub : (Store.del s id).map Node.id |>.Sublist (s.map Node.id) :=
    List.Sublist.map Node.id (List.filter_sublist s)
  exact List.Nodup.sublist hsub hWF

lemma DeleteNode_error_store {s : Store} {id : String} {s' : Store} {e : DeleteErr}
    (h : DeleteNode s id = (s', some e)) : s' = s := by
  unfold DeleteNode at h
  cases hget : getNodeInternal s id with
  | none =>
    rw [hget] at h
    exact (congrArg Prod.fst h).symm
  | some node =>
    rw [hget] at h
    simp only at h
    split at h
    · exact (congrArg Prod.fst h).symm
    · have := congrArg Prod.snd h
      simp at this

lemma DeleteNode_success_decompose {s : Store} {id : String} {s' : Store}
    (h : DeleteNode s id = (s', none)) :
    ∃ node, getNodeInternal s id = some node ∧
      s.any (fun n => decide (id ∈ n.parents)) = false ∧
      s' = Store.del (updateCumulativeWeights s node (-node.weight)) id := by
  unfold DeleteNode at h
  cases hget : getNodeInternal s id with
  | none =>
    rw [hget] at h
    have := congrArg Prod.snd h
    simp at this
  | some node =>
    rw [hget] at h
    simp only at h
    refine ⟨node, rfl, ?_, ?_⟩
    · by_contra hany
      rw [if_pos (by simpa using Bool.of_not_eq_false hany)] at h
      have := congrArg Prod.snd h
      simp at this
    · cases hany : s.any (fun n => decide (id ∈ n.parents)) with
      | true =>
        rw [if_pos hany] at h
        have := congrArg Prod.snd h
        simp at this
      | false =>
        rw [if_neg (by simp [hany])] at h
        exact (congrArg Prod.fst h).symm

/-- C10: when `AddNode` fails with `AlreadyExists`, `TooManyParents`,
`CycleDetected` or `ParentMissing`, the store is completely unchanged: every
validation happens before the first write (dag.go lines 34-82). -/
theorem C10_failed_AddNode_leaves_store_unchanged (cfg : Config) (s : Store)
    (r : RandSrc) (input : InputNode) (e : AddErr)
    (h : (AddNode cfg s r input).2 = some e)
    (_hkind : (∃ i, e = .alreadyExists i) ∨
      (∃ i c m, e = .tooManyParents i c m) ∨
      (∃ i, e = .cycleDetected i) ∨
      (∃ p, e = .parentMissing p)) :
    (AddNode cfg s r input).1 = s :=
  AddNode_error_store (by rw [← h])

/-- C10 witness: adding a node whose parent is absent from an empty store
fails with `ParentMissing` and leaves the store empty. -/
theorem C10_failed_AddNode_leaves_store_unchanged_witness :
    (AddNode (dagNew 2 1) [] ⟨[], []⟩ ⟨"c", "", some ["missing"], 1, 0⟩).1 = [] :=
  C10_failed_AddNode_leaves_store_unchanged (dagNew 2 1) [] ⟨[], []⟩
    ⟨"c", "", some ["missing"], 1, 0⟩ (.parentMissing "missing") (by decide)
    (Or.inr (Or.inr (Or.inr ⟨"missing", rfl⟩)))

/-- C4 counterexample: the claim asserts `DeleteNode(id)` succeeds whenever no
other vertex lists `id` as a parent, "in particular the case where id itself
is absent". On the empty store no vertex lists "x" as a parent, yet
`DeleteNode "x"` fails (with `NotFound`), refuting the claimed equivalence. -/
theorem C4_delete_succeeds_iff_counterexample :
    (DeleteNode [] "x").2 ≠ none ∧ ∀ n ∈ ([] : Store), "x" ∉ n.parents := by
  refine ⟨by decide, ?_⟩
  intro n hn
  cases hn

/-- C4 (amended): `DeleteNode(id)` succeeds iff `id` is present in the Store
and no stored vertex (the vertex itself included) lists `id` among its
parents at the moment of the call (dag.go lines 434-472). -/
theorem C4_delete_succeeds_iff (s : Store) (id : String) :
    (DeleteNode s id).2 = none ↔
      (∃ node, getNodeInternal s id = some node) ∧ ∀ n ∈ s, id ∉ n.parents := by
  unfold DeleteNode
  cases hget : getNodeInternal s id with
  | none =>
    simp only
    constructor
    · intro h
      simp at h
    · rintro ⟨⟨node, hnode⟩, -⟩
      cases hnode
  | some node =>
    simp only
    cases hany : s.any (fun n => decide (id ∈ n.parents)) with
    | true =>
      rw [if_pos rfl]
      constructor
      · intro h
        simp at h
      · rintro ⟨-, hall⟩
        obtain ⟨n, hn, hp⟩ := List.any_eq_true.mp hany
        exact absurd (of_decide_eq_true hp) (hall n hn)
    | false =>
      rw [if_neg Bool.false_ne_true]
      constructor
      · intro _
        refine ⟨⟨node, rfl⟩, ?_⟩
        intro n hn hp
        have := List.any_eq_false.mp hany n hn
        simp at this
        exact this hp
      · intro _
        rfl

lemma inv_preserved_AddNode (cfg : Config) (s : Store) (r : RandSrc)
    (input : InputNode) (hWF : StoreWF s)
    (hinv : ∀ n ∈ s, n.weight ≤ n.cumulativeWeight) :
    StoreWF (AddNode cfg s r input).1 ∧
      ∀ n ∈ (AddNode cfg s r input).1, n.weight ≤ n.cumulativeWeight := by
  cases herr : (AddNode cfg s r input).2 with
  | some e =>
    have hEq : AddNode cfg s r input = ((AddNode cfg s r input).1, some e) := by
      rw [← herr]
    rw [AddNode_error_store hEq]
    exact ⟨hWF, hinv⟩
  | none =>
    obtain ⟨hget, parents, hw⟩ := AddNode_success_decompose (by rw [← herr])
    obtain ⟨-, -, hs'⟩ := addNodeWith_success hw
    rw [hs']
    have hget' : getNodeInternal s (mkNode cfg input parents).id = none := hget
    have hany : s.any (fun m => decide (m.id = (mkNode cfg input parents).id)) = false := by
      rw [List.any_eq_false]
      intro m hm
      have := (getNodeInternal_eq_none_iff s _).mp hget' m hm
      simpa using this
    have hWF1 : StoreWF (Store.put s (mkNode cfg input parents)) :=
      storeWF_put_absent hWF hget'
    have hinv1 : ∀ n ∈ Store.put s (mkNode cfg input parents),
        n.weight ≤ n.cumulativeWeight := by
      intro n hn
      rw [put_of_absent hany] at hn
      rcases List.mem_append.mp hn with h | h
      · exact hinv n h
      · rw [List.mem_singleton.mp h]
        exact le_refl _
    refine ⟨storeWF_updateCumulativeWeights _ _ hWF1, ?_⟩
    intro n hn
    unfold updateCumulativeWeights at hn
    split at hn
    · exact hinv1 n hn
    · rw [applyDeltas_eq_map _ _ _ hWF1 (ancestorClosure_nodup _ _)] at hn
      obtain ⟨m, hm, rfl⟩ := List.mem_map.mp hn
      by_cases hmid : m.id ∈ ancestorClosure (Store.put s (mkNode cfg input parents))
          (mkNode cfg input parents).parents
      · rw [if_pos hmid]
        exact clampNode_weight_le m _
      · rw [if_neg hmid]
        exact hinv1 m hm

lemma inv_preserved_DeleteNode (s : Store) (id : String) (hWF : StoreWF s)
    (hinv : ∀ n ∈ s, n.weight ≤ n.cumulativeWeight) :
    StoreWF (DeleteNode s id).1 ∧
      ∀ n ∈ (DeleteNode s id).1, n.weight ≤ n.cumulativeWeight := by
  cases herr : (DeleteNode s id).2 with
  | some e =>
    have hEq : DeleteNode s id = ((DeleteNode s id).1, some e) := by
      rw [← herr]
    rw [DeleteNode_error_store hEq]
    exact ⟨hWF, hinv⟩
  | none =>
    obtain ⟨node, hget, hany, hs'⟩ := DeleteNode_success_decompose (by rw [← herr])
    rw [hs']
    have hWFu : StoreWF (updateCumulativeWeights s node (-node.weight)) :=
      storeWF_updateCumulativeWeights _ _ hWF
    have hinvu : ∀ n ∈ updateCumulativeWeights s node (-node.weight),
        n.weight ≤ n.cumulativeWeight := by
      intro n hn
      unfold updateCumulativeWeights at hn
      split at hn
      · exact hinv n hn
      · rw [applyDeltas_eq_map _ _ _ hWF (ancestorClosure_nodup _ _)] at hn
        obtain ⟨m, hm, rfl⟩ := List.mem_map.mp hn
        by_cases hmid : m.id ∈ ancestorClosure s node.parents
        · rw [if_pos hmid]
          exact clampNode_weight_le m _
        · rw [if_neg hmid]
          exact hinv m hm
    refine ⟨storeWF_del id hWFu, ?_⟩
    intro n hn
    exact hinvu n (List.mem_of_mem_filter hn)

lemma inv_runOps (cfg : Config) (ops : List EngineOp) :
    ∀ s : Store, StoreWF s → (∀ n ∈ s, n.weight ≤ n.cumulativeWeight) →
      StoreWF (runOps cfg s ops) ∧
        ∀ n ∈ runOps cfg s ops, n.weight ≤ n.cumulativeWeight := by
  induction ops with
  | nil => intro s hWF hinv; exact ⟨hWF, hinv⟩
  | cons op ops ih =>
    intro s hWF hinv
    cases op with
    | add r input =>
      have h := inv_preserved_AddNode cfg s r input hWF hinv
      exact ih _ h.1 h.2
    | del id =>
      have h := inv_preserved_DeleteNode s id hWF hinv
      exact ih _ h.1 h.2

/-- C3: starting from the empty store, after every sequence of engine
operations (`AddNode` and `DeleteNode` with arbitrary caller-supplied fields,
zero and negative weights included; failed calls leave the store unchanged,
so every successful subsequence is covered), every vertex in the store
satisfies `weight ≤ cumulative_weight` (dag.go lines 74-77, 174-177). -/
theorem C3_cumulative_ge_intrinsic (cfg : Config) (ops : List EngineOp) :
    ∀ n ∈ runOps cfg [] ops, n.weight ≤ n.cumulativeWeight := by
  refine (inv_runOps cfg ops [] ?_ ?_).2
  · exact List.nodup_nil
  · intro n hn
    cases hn

/-- C3 witness: after inserting a genesis vertex of weight 1, the stored
vertex satisfies the invariant. -/
theorem C3_cumulative_ge_intrinsic_witness :
    (⟨"a", "", [], 1, 1⟩ : Node).weight ≤
      (⟨"a", "", [], 1, 1⟩ : Node).cumulativeWeight :=
  C3_cumulative_ge_intrinsic (dagNew 2 1)
    [EngineOp.add ⟨[], []⟩ ⟨"a", "", some [], 1, 0⟩]
    ⟨"a", "", [], 1, 1⟩ (by decide)

/-- C1: for every successful `AddNode` of a vertex `v` with a non-empty
parent set, with `A` the BFS ancestor closure through `parents` edges:
(1) membership in `A` is exactly reachability from `v`'s parents, so a vertex
reachable along several distinct paths (diamond) is in `A` just once;
(2) every member of `A` stored before the call has its record rewritten
exactly once to `clampNode`, i.e. its cumulative weight becomes
`max (old + v.weight) weight` — incremented once by `v`'s normalized weight
and clamped at its own intrinsic weight;
(3) every other vertex keeps its record unchanged
(dag.go lines 34-92, 129-186). -/
theorem C1_ancestors_updated_once (cfg : Config) (s : Store) (r : RandSrc)
    (input : InputNode) (s' : Store) (v : Node)
    (hWF : StoreWF s)
    (h : AddNode cfg s r input = (s', none))
    (hv : getNodeInternal s' input.id = some v)
    (hne : v.parents ≠ []) :
    (∀ x, x ∈ ancestorClosure s' v.parents ↔ ∃ p ∈ v.parents, Reaches s' p x) ∧
    (∀ x a, x ≠ input.id → x ∈ ancestorClosure s' v.parents →
      getNodeInternal s x = some a →
      getNodeInternal s' x = some (clampNode a v.weight)) ∧
    (∀ x, x ≠ input.id → x ∉ ancestorClosure s' v.parents →
      getNodeInternal s' x = getNodeInternal s x) := by
  obtain ⟨hget, parents, hw⟩ := AddNode_success_decompose h
  obtain ⟨-, -, hs'⟩ := addNodeWith_success hw
  have hget' : getNodeInternal s (mkNode cfg input parents).id = none := hget
  have hWF1 : StoreWF (Store.put s (mkNode cfg input parents)) :=
    storeWF_put_absent hWF hget'
  by_cases hpe : parents = []
  · exfalso
    apply hne
    have hs'2 : s' = Store.put s (mkNode cfg input parents) := by
      rw [hs']
      exact updateCumulativeWeights_nilParents _ _ _ (by simpa using hpe)
    rw [hs'2, getNodeInternal_put,
      if_pos (show input.id = (mkNode cfg input parents).id from rfl)] at hv
    have hveq : v = mkNode cfg input parents := (Option.some_injective _ hv).symm
    rw [hveq]
    simpa using hpe
  · have hne1 : (mkNode cfg input parents).parents ≠ [] := by simpa using hpe
    have hmap : s' = (Store.put s (mkNode cfg input parents)).map
        (fun n => if n.id ∈ ancestorClosure (Store.put s (mkNode cfg input parents))
            (mkNode cfg input parents).parents
          then clampNode n (mkNode cfg input parents).weight else n) := by
      rw [hs']
      exact updateCumulativeWeights_eq_map _ _ _ hWF1 hne1
    have hfi : ∀ m : Node,
        ((fun n => if n.id ∈ ancestorClosure (Store.put s (mkNode cfg input parents))
            (mkNode cfg input parents).parents
          then clampNode n (mkNode cfg input parents).weight else n) m).id = m.id := by
      intro m
      dsimp only
      by_cases hm : m.id ∈ ancestorClosure (Store.put s (mkNode cfg input parents))
          (mkNode cfg input parents).parents
      · rw [if_pos hm, clampNode_id]
      · rw [if_neg hm]
    have hfp : ∀ m : Node,
        ((fun n => if n.id ∈ ancestorClosure (Store.put s (mkNode cfg input parents))
            (mkNode cfg input parents).parents
          then clampNode n (mkNode cfg input parents).weight else n) m).parents = m.parents := by
      intro m
      dsimp only
      by_cases hm : m.id ∈ ancestorClosure (Store.put s (mkNode cfg input parents))
          (mkNode cfg input parents).parents
      · rw [if_pos hm, clampNode_parents]
      · rw [if_neg hm]
    have hvval : getNodeInternal s' input.id =
        some ((fun n => if n.id ∈ ancestorClosure (Store.put s (mkNode cfg input parents))
            (mkNode cfg input parents).parents
          then clampNode n (mkNode cfg input parents).weight else n)
            (mkNode cfg input parents)) := by
      rw [hmap, get_map_id_preserving _ _ hfi, getNodeInternal_put,
        if_pos (show input.id = (mkNode cfg input parents).id from rfl)]
      rfl
    have hveq : v = (fun n => if n.id ∈ ancestorClosure (Store.put s (mkNode cfg input parents))
        (mkNode cfg input parents).parents
      then clampNode n (mkNode cfg input parents).weight else n) (mkNode cfg input parents) := by
      rw [hv] at hvval
      exact Option.some_injective _ hvval
    have hvp : v.parents = (mkNode cfg input parents).parents := by
      rw [hveq]
      exact hfp _
    have hvw : v.weight = (mkNode cfg input parents).weight := by
      rw [hveq]
      dsimp only
      by_cases hm : (mkNode cfg input parents).id ∈
          ancestorClosure (Store.put s (mkNode cfg input parents))
            (mkNode cfg input parents).parents
      · simp only [if_pos hm, clampNode_weight]
      · simp only [if_neg hm]
    have hclosure : ancestorClosure s' v.parents =
        ancestorClosure (Store.put s (mkNode cfg input parents))
          (mkNode cfg input parents).parents := by
      rw [hvp, hmap]
      exact ancestorClosure_map _ _ hfi hfp _
    refine ⟨?_, ?_, ?_⟩
    · intro x
      rw [hclosure, ancestorClosure_spec, hvp]
      constructor
      · rintro ⟨p, hp, hreach⟩
        refine ⟨p, hp, ?_⟩
        rw [hmap]
        exact (reaches_map_iff _ _ hfi hfp p x).mpr hreach
      · rintro ⟨p, hp, hreach⟩
        refine ⟨p, hp, ?_⟩
        rw [hmap] at hreach
        exact (reaches_map_iff _ _ hfi hfp p x).mp hreach
    · intro x a hx hxA hax
      rw [hclosure] at hxA
      have hxid : a.id = x := (getNodeInternal_mem hax).2
      rw [hmap, get_map_id_preserving _ _ hfi, getNodeInternal_put,
        if_neg (show ¬ x = (mkNode cfg input parents).id from hx), hax]
      simp only [Option.map_some']
      rw [if_pos (hxid ▸ hxA), hvw]
    · intro x hx hxA
      rw [hclosure] at hxA
      rw [hmap, get_map_id_preserving _ _ hfi, getNodeInternal_put,
        if_neg (show ¬ x = (mkNode cfg input parents).id from hx)]
      cases hax : getNodeInternal s x with
      | none => rfl
      | some a =>
        have hxid : a.id = x := (getNodeInternal_mem hax).2
        simp only [Option.map_some']
        rw [if_neg (hxid ▸ hxA)]

/-- C1 witness: in a diamond (`b` and `c` both children of `a`), adding `d`
with parents `[b, c]` updates `a` exactly once by `clampNode`. -/
theorem C1_ancestors_updated_once_witness :
    getNodeInternal
      (AddNode (dagNew 3 1)
        [⟨"a", "", [], 1, 3⟩, ⟨"b", "", ["a"], 1, 1⟩, ⟨"c", "", ["a"], 1, 1⟩]
        ⟨[], []⟩ ⟨"d", "", some ["b", "c"], 1, 0⟩).1 "a" =
      some (clampNode ⟨"a", "", [], 1, 3⟩ 1) :=
  (C1_ancestors_updated_once (dagNew 3 1)
      [⟨"a", "", [], 1, 3⟩, ⟨"b", "", ["a"], 1, 1⟩, ⟨"c", "", ["a"], 1, 1⟩]
      ⟨[], []⟩ ⟨"d", "", some ["b", "c"], 1, 0⟩
      (AddNode (dagNew 3 1)
        [⟨"a", "", [], 1, 3⟩, ⟨"b", "", ["a"], 1, 1⟩, ⟨"c", "", ["a"], 1, 1⟩]
        ⟨[], []⟩ ⟨"d", "", some ["b", "c"], 1, 0⟩).1
      ⟨"d", "", ["b", "c"], 1, 1⟩
      (by decide) rfl (by decide) (by decide)).2.1
    "a" ⟨"a", "", [], 1, 3⟩ (by decide) (by decide) (by decide)

lemma addNodeWith_input_congr (cfg : Config) (s : Store) (input input' : InputNode)
    (parents : List String) (hid : input.id = input'.id)
    (hdata : input.data = input'.data) (hwt : input.weight = input'.weight) :
    addNodeWith cfg s input parents = addNodeWith cfg s input' parents := by
  unfold addNodeWith mkNode normalizeWeight
  rw [hid, hdata, hwt]

lemma AddNode_with_some (cfg : Config) (s : Store) (r : RandSrc) (input : InputNode)
    (ps : List String) (hps : input.parents = some ps) :
    AddNode cfg s r input =
      match getNodeInternal s input.id with
      | some _ => (s, some (.alreadyExists input.id))
      | none => addNodeWith cfg s input ps := by
  unfold AddNode
  cases hget : getNodeInternal s input.id with
  | some m => rfl
  | none => rw [hps]

lemma AddNode_with_none_ok (cfg : Config) (s : Store) (r : RandSrc) (input : InputNode)
    (ts : List String) (hps : input.parents = none)
    (hsel : selectTipsMCMCInternal cfg s 2 r = .ok ts) :
    AddNode cfg s r input =
      match getNodeInternal s input.id with
      | some _ => (s, some (.alreadyExists input.id))
      | none => addNodeWith cfg s input ts := by
  unfold AddNode
  cases hget : getNodeInternal s input.id with
  | some m => rfl
  | none => rw [hps, hsel]

lemma AddNode_with_none_noTips (cfg : Config) (s : Store) (r : RandSrc)
    (input : InputNode) (hps : input.parents = none)
    (hsel : selectTipsMCMCInternal cfg s 2 r = .error .noTips) :
    AddNode cfg s r input =
      match getNodeInternal s input.id with
      | some _ => (s, some (.alreadyExists input.id))
      | none => (s, some .tipSelectFailed) := by
  unfold AddNode
  cases hget : getNodeInternal s input.id with
  | some m => rfl
  | none => rw [hps, hsel]

lemma selectTips_empty (cfg : Config) (maxTips : ℤ) (r : RandSrc) :
    selectTipsMCMCInternal cfg [] maxTips r = .error .emptyDAG := rfl



lemma addNode_explicit_parents_stored (cfg : Config) (s : Store) (r : RandSrc)
    (input : InputNode) (ps : List String) (hWF : StoreWF s)
    (hps : input.parents = some ps) (hsucc : (AddNode cfg s r input).2 = none) :
    ∃ v, getNodeInternal (AddNode cfg s r input).1 input.id = some v ∧
      v.parents = ps := by
  cases hget : getNodeInternal s input.id with
  | some m =>
    rw [AddNode_with_some cfg s r input ps hps, hget] at hsucc
    simp at hsucc
  | none =>
    have hAdd : AddNode cfg s r input = addNodeWith cfg s input ps := by
      rw [AddNode_with_some cfg s r input ps hps, hget]
    rw [hAdd] at hsucc ⊢
    have hEq : addNodeWith cfg s input ps = ((addNodeWith cfg s input ps).1, none) := by
      rw [← hsucc]
    obtain ⟨-, -, hs'⟩ := addNodeWith_success hEq
    by_cases hpe : ps = []
    · subst hpe
      rw [hs', updateCumulativeWeights_nilParents _ _ _ rfl, getNodeInternal_put,
        if_pos (show input.id = (mkNode cfg input []).id from rfl)]
      exact ⟨mkNode cfg input [], rfl, rfl⟩
    · have hne1 : (mkNode cfg input ps).parents ≠ [] := by simpa using hpe
      have hWF1 : StoreWF (Store.put s (mkNode cfg input ps)) :=
        storeWF_put_absent hWF hget
      rw [hs', get_updateCumulativeWeights _ _ _ hWF1 hne1, getNodeInternal_put,
        if_pos (show input.id = (mkNode cfg input ps).id from rfl)]
      simp only [Option.map_some']
      refine ⟨_, rfl, ?_⟩
      dsimp only
      by_cases hm : (mkNode cfg input ps).id ∈
          ancestorClosure (Store.put s (mkNode cfg input ps))
            (mkNode cfg input ps).parents
      · rw [if_pos hm, clampNode_parents]
        rfl
      · rw [if_neg hm]
        rfl

/-- C5: the parent-selection trichotomy of `AddNode` (dag.go lines 50-63).
(1) Unset parents on the empty store: MCMC tip selection (requesting up to 2
tips) fails with the tolerated empty-DAG error and the vertex is inserted as
a genesis vertex with an empty parent set. (2) Unset parents with the other
tip-selection error (`noTips`): `AddNode` fails. (3) Unset parents with
successful tip selection: `AddNode` behaves exactly as if the selected tips
had been supplied explicitly. (4) Explicitly supplied parents (empty or
not): the random oracle is never consulted — the outcome is identical for
every oracle. (5) Explicitly supplied parents are kept verbatim in the
stored vertex — in particular an explicitly empty list stays empty. -/
theorem C5_parent_selection_trichotomy (cfg : Config) :
    (∀ (input : InputNode) (r : RandSrc), input.parents = none →
      (AddNode cfg [] r input).2 = none ∧
      getNodeInternal (AddNode cfg [] r input).1 input.id = some (mkNode cfg input [])) ∧
    (∀ (s : Store) (r : RandSrc) (input : InputNode), input.parents = none →
      selectTipsMCMCInternal cfg s 2 r = .error .noTips →
      (AddNode cfg s r input).2 ≠ none) ∧
    (∀ (s : Store) (r : RandSrc) (input : InputNode) (ts : List String),
      input.parents = none → selectTipsMCMCInternal cfg s 2 r = .ok ts →
      AddNode cfg s r input = AddNode cfg s r { input with parents := some ts }) ∧
    (∀ (s : Store) (r r' : RandSrc) (input : InputNode) (ps : List String),
      input.parents = some ps → AddNode cfg s r input = AddNode cfg s r' input) ∧
    (∀ (s : Store) (r : RandSrc) (input : InputNode) (ps : List String),
      StoreWF s → input.parents = some ps → (AddNode cfg s r input).2 = none →
      ∃ v, getNodeInternal (AddNode cfg s r input).1 input.id = some v ∧
        v.parents = ps) := by
  refine ⟨?_, ?_, ?_, ?_, ?_⟩
  · intro input r hps
    have hcard : ¬(0 < cfg.maxParents ∧
        cfg.maxParents < ((([] : List String)).length : ℤ)) := by
      rintro ⟨hp, hl⟩
      norm_num at hl
      omega
    have h1 : AddNode cfg [] r input = addNodeWith cfg [] input [] := by
      unfold AddNode
      rw [hps, selectTips_empty]
      rfl
    have h2 : addNodeWith cfg [] input [] = ([mkNode cfg input []], none) := by
      unfold addNodeWith
      rw [if_neg hcard]
      rfl
    rw [h1, h2]
    refine ⟨rfl, ?_⟩
    rw [getNodeInternal_cons, if_pos (show (mkNode cfg input []).id = input.id from rfl)]
  · intro s r input hps hsel
    rw [AddNode_with_none_noTips cfg s r input hps hsel]
    cases hget : getNodeInternal s input.id with
    | some m => simp
    | none => simp
  · intro s r input ts hps hsel
    rw [AddNode_with_none_ok cfg s r input ts hps hsel,
      AddNode_with_some cfg s r { input with parents := some ts } ts rfl]
    rw [show ({ input with parents := some ts } : InputNode).id = input.id from rfl]
    cases hget : getNodeInternal s input.id with
    | some m => rfl
    | none =>
      exact addNodeWith_input_congr cfg s input { input with parents := some ts } ts
        rfl rfl rfl
  · intro s r r' input ps hps
    rw [AddNode_with_some cfg s r input ps hps, AddNode_with_some cfg s r' input ps hps]
  · intro s r input ps hWF hps hsucc
    exact addNode_explicit_parents_stored cfg s r input ps hWF hps hsucc

/-- C5 witness: a concrete genesis insertion through branch (1) of the
trichotomy: unset parents on the empty store succeed with an empty parent
set. -/
theorem C5_parent_selection_trichotomy_witness :
    (AddNode (dagNew 2 1) [] ⟨[], []⟩ ⟨"g", "", none, 1, 0⟩).2 = none ∧
    getNodeInternal (AddNode (dagNew 2 1) [] ⟨[], []⟩ ⟨"g", "", none, 1, 0⟩).1 "g" =
      some (mkNode (dagNew 2 1) ⟨"g", "", none, 1, 0⟩ []) :=
  (C5_parent_selection_trichotomy (dagNew 2 1)).1 ⟨"g", "", none, 1, 0⟩ ⟨[], []⟩ rfl

lemma isTip_iff (s : Store) (id : String) :
    isTipInternal s id = true ↔ ∀ n ∈ s, id ∉ n.parents := by
  induction s with
  | nil => simp [isTipInternal]
  | cons a s ih =>
    by_cases h : id ∈ a.parents
    · simp [isTipInternal, h]
    · simp [isTipInternal, h, ih]

lemma getChildren_nil_iff (s : Store) (id : String) :
    getChildren s id = [] ↔ isTipInternal s id = true := by
  unfold getChildren
  rw [List.filter_eq_nil_iff, isTip_iff]
  constructor
  · intro h n hn
    have := h n hn
    simpa using this
  · intro h n hn
    simpa using h n hn

lemma walkSteps_tip (s : Store) : ∀ (steps : ℕ) (current : Node) (r : RandSrc)
    (id : String), (walkSteps s steps current r).1 = some id →
    isTipInternal s id = true := by
  intro steps
  induction steps with
  | zero =>
    intro current r id h
    simp [walkSteps] at h
  | succ steps ih =>
    intro current r id h
    simp only [walkSteps] at h
    split at h
    · rename_i ht
      have : current.id = id := by simpa using h
      exact this ▸ ht
    · split at h
      · rename_i hemp
        have hch : getChildren s current.id = [] := List.isEmpty_iff.mp hemp
        have : current.id = id := by simpa using h
        exact this ▸ (getChildren_nil_iff s current.id).mp hch
      · split at h
        · exact ih _ _ _ h
        · simp at h

lemma tipLoop_tips (s : Store) (maxTips : ℤ) (steps : ℕ) :
    ∀ (attempts : ℕ) (tips : List String) (r : RandSrc) (res : List String),
      tipLoop s maxTips steps attempts tips r = .ok res →
      (∀ id ∈ tips, isTipInternal s id = true) →
      ∀ id ∈ res, isTipInternal s id = true := by
  intro attempts
  induction attempts with
  | zero =>
    intro tips r res h hinv
    simp only [tipLoop] at h
    cases h
    exact hinv
  | succ attempts ih =>
    intro tips r res h hinv
    simp only [tipLoop] at h
    split at h
    · cases hrand : getRandomNode s r with
      | error e =>
        rw [hrand] at h
        cases h
      | ok p =>
        obtain ⟨startNode, r1⟩ := p
        rw [hrand] at h
        simp only at h
        refine ih _ _ res h ?_
        cases hfr : (walkSteps s steps startNode r1).1 with
        | none => exact hinv
        | some id2 =>
          have htip2 : isTipInternal s id2 = true := walkSteps_tip s steps startNode r1 id2 hfr
          show ∀ id ∈ (if id2 ∈ tips then tips else tips ++ [id2]), isTipInternal s id = true
          by_cases hmem : id2 ∈ tips
          · rw [if_pos hmem]
            exact hinv
          · rw [if_neg hmem]
            intro id hid
            rcases List.mem_append.mp hid with h1 | h1
            · exact hinv id h1
            · exact (List.mem_singleton.mp h1) ▸ htip2
    · cases h
      exact hinv

/-- C6: every ID in the list returned by a successful `selectTipsMCMCInternal`
call (the body of `SelectTipsMCMC`) is a tip at the moment of return: no
vertex in the store lists it among its parents. This holds for every store,
every requested tip count, and every outcome of the random draws
(dag.go lines 268-327, 415-432, 358-376). -/
theorem C6_selected_ids_are_tips (cfg : Config) (s : Store) (maxTips : ℤ)
    (r : RandSrc) (tips : List String)
    (h : selectTipsMCMCInternal cfg s maxTips r = .ok tips) :
    ∀ id ∈ tips, ∀ n ∈ s, id ∉ n.parents := by
  simp only [selectTipsMCMCInternal] at h
  split at h
  · cases h
  · split at h
    · cases h
    · rename_i res hloop
      split at h
      · cases h
      · cases h
        intro id hid
        rw [← isTip_iff]
        exact tipLoop_tips s _ _ _ [] r tips hloop (fun i hi => by cases hi) id hid

/-- C6 witness: on a single-vertex store, tip selection returns that vertex
and it is indeed a tip. -/
theorem C6_selected_ids_are_tips_witness :
    isTipInternal [⟨"n1", "", [], 1, 1⟩] "n1" = true :=
  (isTip_iff _ _).mpr
    (C6_selected_ids_are_tips (dagNew 2 1) [⟨"n1", "", [], 1, 1⟩] 2 ⟨[], []⟩ ["n1"] rfl
      "n1" (by decide))

lemma clampNode_of_nonneg (n : Node) (delta : ℚ) (hd : 0 ≤ delta)
    (hn : n.weight ≤ n.cumulativeWeight) :
    clampNode n delta = { n with cumulativeWeight := n.cumulativeWeight + delta } := by
  unfold clampNode
  dsimp only
  rw [if_neg (by linarith)]

lemma clampNode_add_sub (n : Node) (delta : ℚ) (hd : 0 ≤ delta)
    (hn : n.weight ≤ n.cumulativeWeight) :
    clampNode (clampNode n delta) (-delta) = n := by
  rw [clampNode_of_nonneg n delta hd hn]
  unfold clampNode
  dsimp only
  have harith : n.cumulativeWeight + delta + -delta = n.cumulativeWeight := by ring
  rw [harith, if_neg (not_lt.mpr hn)]

lemma chain3_eval (cfg : Config) (r : RandSrc) (w1 w2 w3 : ℚ)
    (h1 : w1 ≠ 0) (h2 : w2 ≠ 0) (h3 : w3 ≠ 0) :
    AddNode cfg [] r ⟨"n1", "", some [], w1, 0⟩ = ([⟨"n1", "", [], w1, w1⟩], none) ∧
    AddNode cfg [⟨"n1", "", [], w1, w1⟩] r ⟨"n2", "", some ["n1"], w2, 0⟩ =
      ([clampNode ⟨"n1", "", [], w1, w1⟩ w2, ⟨"n2", "", ["n1"], w2, w2⟩], none) ∧
    AddNode cfg [clampNode ⟨"n1", "", [], w1, w1⟩ w2, ⟨"n2", "", ["n1"], w2, w2⟩] r
        ⟨"n3", "", some ["n2"], w3, 0⟩ =
      ([clampNode (clampNode ⟨"n1", "", [], w1, w1⟩ w2) w3,
        clampNode ⟨"n2", "", ["n1"], w2, w2⟩ w3,
        ⟨"n3", "", ["n2"], w3, w3⟩], none) := by
  have hcard0 : ¬(0 < cfg.maxParents ∧ cfg.maxParents < ((([] : List String)).length : ℤ)) := by
    rintro ⟨a, b⟩
    norm_num at b
    omega
  have hcard1 : ∀ p : String, ¬(0 < cfg.maxParents ∧ cfg.maxParents < (([p] : List String).length : ℤ)) := by
    intro p
    rintro ⟨a, b⟩
    norm_num at b
    omega
  refine ⟨?_, ?_, ?_⟩
  · rw [AddNode_with_some cfg [] r _ [] rfl]
    simp only [show getNodeInternal ([] : Store)
      (InputNode.id ⟨"n1", "", some [], w1, 0⟩) = none from rfl]
    unfold addNodeWith
    rw [if_neg hcard0]
    simp only [show checkCycle ([] : Store)
      (InputNode.id ⟨"n1", "", some [], w1, 0⟩) [] = none from rfl]
    rw [show mkNode cfg ⟨"n1", "", some [], w1, 0⟩ [] = (⟨"n1", "", [], w1, w1⟩ : Node) by
      simp [mkNode, normalizeWeight, h1]]
    rfl
  · rw [AddNode_with_some cfg _ r _ ["n1"] rfl]
    simp only [show getNodeInternal ([⟨"n1", "", [], w1, w1⟩] : Store) "n2" = none by
      rw [getNodeInternal_cons, if_neg (by simp), getNodeInternal_nil]]
    unfold addNodeWith
    rw [if_neg (hcard1 "n1")]
    simp only [show checkCycle ([⟨"n1", "", [], w1, w1⟩] : Store) "n2" ["n1"] = none by
      unfold checkCycle
      rw [if_neg (by simp), getNodeInternal_cons,
        if_pos (show (⟨"n1", "", [], w1, w1⟩ : Node).id = "n1" from rfl)]
      rfl]
    rw [show mkNode cfg ⟨"n2", "", some ["n1"], w2, 0⟩ ["n1"] =
        (⟨"n2", "", ["n1"], w2, w2⟩ : Node) by
      simp [mkNode, normalizeWeight, h2]]
    rfl
  · rw [AddNode_with_some cfg _ r _ ["n2"] rfl]
    simp only [show getNodeInternal
        ([clampNode ⟨"n1", "", [], w1, w1⟩ w2, ⟨"n2", "", ["n1"], w2, w2⟩] : Store)
        "n3" = none by
      rw [getNodeInternal_cons, if_neg (by simp [clampNode]), getNodeInternal_cons,
        if_neg (by simp), getNodeInternal_nil]]
    unfold addNodeWith
    rw [if_neg (hcard1 "n2")]
    simp only [show checkCycle
        ([clampNode ⟨"n1", "", [], w1, w1⟩ w2, ⟨"n2", "", ["n1"], w2, w2⟩] : Store)
        "n3" ["n2"] = none by
      unfold checkCycle
      rw [if_neg (by simp), getNodeInternal_cons, if_neg (by simp [clampNode]),
        getNodeInternal_cons,
        if_pos (show (⟨"n2", "", ["n1"], w2, w2⟩ : Node).id = "n2" from rfl)]
      rfl]
    rw [show mkNode cfg ⟨"n3", "", some ["n2"], w3, 0⟩ ["n2"] =
        (⟨"n3", "", ["n2"], w3, w3⟩ : Node) by
      simp [mkNode, normalizeWeight, h3]]
    rfl

/-- C2 (amended): on the empty store, inserting the chain `n1`, `n2(parent
n1)`, `n3(parent n2)` with positive weights `w1, w2, w3` succeeds and yields
`cumulative_weight(n1) = w1 + w2 + w3`, `cumulative_weight(n2) = w2 + w3`,
`cumulative_weight(n3) = w3`. Positivity (rather than the claimed mere
nonzero-ness) is required: with a negative weight the clamp at the intrinsic
weight fires and the equalities fail (see the counterexample). -/
theorem C2_linear_chain_weights (cfg : Config) (r : RandSrc) (w1 w2 w3 : ℚ)
    (h1 : 0 < w1) (h2 : 0 < w2) (h3 : 0 < w3) :
    (AddNode cfg [] r ⟨"n1", "", some [], w1, 0⟩).2 = none ∧
    (AddNode cfg (AddNode cfg [] r ⟨"n1", "", some [], w1, 0⟩).1 r
        ⟨"n2", "", some ["n1"], w2, 0⟩).2 = none ∧
    (AddNode cfg (AddNode cfg (AddNode cfg [] r ⟨"n1", "", some [], w1, 0⟩).1 r
        ⟨"n2", "", some ["n1"], w2, 0⟩).1 r ⟨"n3", "", some ["n2"], w3, 0⟩).2 = none ∧
    getNodeInternal (AddNode cfg (AddNode cfg (AddNode cfg [] r
        ⟨"n1", "", some [], w1, 0⟩).1 r ⟨"n2", "", some ["n1"], w2, 0⟩).1 r
        ⟨"n3", "", some ["n2"], w3, 0⟩).1 "n1" = some ⟨"n1", "", [], w1, w1 + w2 + w3⟩ ∧
    getNodeInternal (AddNode cfg (AddNode cfg (AddNode cfg [] r
        ⟨"n1", "", some [], w1, 0⟩).1 r ⟨"n2", "", some ["n1"], w2, 0⟩).1 r
        ⟨"n3", "", some ["n2"], w3, 0⟩).1 "n2" = some ⟨"n2", "", ["n1"], w2, w2 + w3⟩ ∧
    getNodeInternal (AddNode cfg (AddNode cfg (AddNode cfg [] r
        ⟨"n1", "", some [], w1, 0⟩).1 r ⟨"n2", "", some ["n1"], w2, 0⟩).1 r
        ⟨"n3", "", some ["n2"], w3, 0⟩).1 "n3" = some ⟨"n3", "", ["n2"], w3, w3⟩ := by
  obtain ⟨e1, e2, e3⟩ := chain3_eval cfg r w1 w2 w3 h1.ne' h2.ne' h3.ne'
  have c12 : clampNode ⟨"n1", "", [], w1, w1⟩ w2 = (⟨"n1", "", [], w1, w1 + w2⟩ : Node) :=
    clampNode_of_nonneg _ _ h2.le (le_refl _)
  have c13 : clampNode (⟨"n1", "", [], w1, w1 + w2⟩ : Node) w3 =
      (⟨"n1", "", [], w1, w1 + w2 + w3⟩ : Node) :=
    clampNode_of_nonneg _ _ h3.le (show w1 ≤ w1 + w2 by linarith)
  have c23 : clampNode (⟨"n2", "", ["n1"], w2, w2⟩ : Node) w3 =
      (⟨"n2", "", ["n1"], w2, w2 + w3⟩ : Node) :=
    clampNode_of_nonneg _ _ h3.le (le_refl _)
  rw [c12] at e2 e3
  rw [c13, c23] at e3
  simp only [e1, e2, e3]
  refine ⟨trivial, trivial, trivial, ?_, ?_, ?_⟩
  · rw [getNodeInternal_cons, if_pos (show (⟨"n1", "", [], w1, w1 + w2 + w3⟩ : Node).id = "n1" from rfl)]
  · rw [getNodeInternal_cons, if_neg (by simp), getNodeInternal_cons,
      if_pos (show (⟨"n2", "", ["n1"], w2, w2 + w3⟩ : Node).id = "n2" from rfl)]
  · rw [getNodeInternal_cons, if_neg (by simp), getNodeInternal_cons, if_neg (by simp),
      getNodeInternal_cons, if_pos (show (⟨"n3", "", ["n2"], w3, w3⟩ : Node).id = "n3" from rfl)]

/-- C2 witness: the chain with weights 1, 2, 3 gives n1 the cumulative
weight 1 + 2 + 3. -/
theorem C2_linear_chain_weights_witness :
    getNodeInternal (AddNode (dagNew 2 1) (AddNode (dagNew 2 1)
        (AddNode (dagNew 2 1) [] ⟨[], []⟩ ⟨"n1", "", some [], 1, 0⟩).1 ⟨[], []⟩
        ⟨"n2", "", some ["n1"], 2, 0⟩).1 ⟨[], []⟩
        ⟨"n3", "", some ["n2"], 3, 0⟩).1 "n1" = some ⟨"n1", "", [], 1, 1 + 2 + 3⟩ :=
  (C2_linear_chain_weights (dagNew 2 1) ⟨[], []⟩ 1 2 3 (by norm_num) (by norm_num)
    (by norm_num)).2.2.2.1

/-- C2 counterexample: the claim only requires the weights to be nonzero. At
`(w1, w2, w3) = (1, -1, 1)` all three inserts succeed, yet n1's persisted
cumulative weight is 2, not `w1 + w2 + w3 = 1`: when n2's negative weight is
propagated, the clamp at n1's intrinsic weight fires and the subtraction is
lost. -/
theorem C2_linear_chain_counterexample :
    (AddNode (dagNew 2 1) [] ⟨[], []⟩ ⟨"n1", "", some [], 1, 0⟩).2 = none ∧
    (AddNode (dagNew 2 1) (AddNode (dagNew 2 1) [] ⟨[], []⟩
        ⟨"n1", "", some [], 1, 0⟩).1 ⟨[], []⟩ ⟨"n2", "", some ["n1"], -1, 0⟩).2 = none ∧
    (AddNode (dagNew 2 1) (AddNode (dagNew 2 1) (AddNode (dagNew 2 1) [] ⟨[], []⟩
        ⟨"n1", "", some [], 1, 0⟩).1 ⟨[], []⟩ ⟨"n2", "", some ["n1"], -1, 0⟩).1 ⟨[], []⟩
        ⟨"n3", "", some ["n2"], 1, 0⟩).2 = none ∧
    getNodeInternal (AddNode (dagNew 2 1) (AddNode (dagNew 2 1)
        (AddNode (dagNew 2 1) [] ⟨[], []⟩ ⟨"n1", "", some [], 1, 0⟩).1 ⟨[], []⟩
        ⟨"n2", "", some ["n1"], -1, 0⟩).1 ⟨[], []⟩
        ⟨"n3", "", some ["n2"], 1, 0⟩).1 "n1" = some ⟨"n1", "", [], 1, 2⟩ ∧
    (2 : ℚ) ≠ 1 + -1 + 1 := by
  obtain ⟨e1, e2, e3⟩ := chain3_eval (dagNew 2 1) ⟨[], []⟩ 1 (-1) 1
    (by norm_num) (by norm_num) (by norm_num)
  have c12 : clampNode ⟨"n1", "", [], 1, 1⟩ (-1) = (⟨"n1", "", [], 1, 1⟩ : Node) := by
    unfold clampNode
    dsimp only
    rw [if_pos (by norm_num : (1 : ℚ) + -1 < 1)]
  have c13 : clampNode (⟨"n1", "", [], 1, 1⟩ : Node) 1 = (⟨"n1", "", [], 1, 2⟩ : Node) := by
    unfold clampNode
    dsimp only
    rw [if_neg (by norm_num : ¬ ((1 : ℚ) + 1 < 1))]
    norm_num
  rw [c12] at e2 e3
  rw [c13] at e3
  simp only [e1, e2, e3]
  refine ⟨trivial, trivial, trivial, ?_, by norm_num⟩
  rw [getNodeInternal_cons, if_pos (show (⟨"n1", "", [], 1, 2⟩ : Node).id = "n1" from rfl)]

/-- C8 counterexample: `AddNode` performs no duplicate check on `parents`:
with `p` present, inserting `c` with parents `["p", "p"]` succeeds and the
duplicated list is persisted verbatim, contradicting the claim that no
successful insert persists duplicates. -/
theorem C8_duplicate_parents_counterexample :
    (AddNode (dagNew 2 1) [⟨"p", "", [], 1, 1⟩] ⟨[], []⟩
      ⟨"c", "", some ["p", "p"], 1, 0⟩).2 = none ∧
    getNodeInternal (AddNode (dagNew 2 1) [⟨"p", "", [], 1, 1⟩] ⟨[], []⟩
      ⟨"c", "", some ["p", "p"], 1, 0⟩).1 "c" = some ⟨"c", "", ["p", "p"], 1, 1⟩ ∧
    ¬ (["p", "p"] : List String).Nodup :=
  ⟨rfl, rfl, by decide⟩

/-- C8 (amended): the engine does not enforce the data model's no-duplicate
constraint on `parents`: a successful `AddNode` with explicitly supplied
parents persists the caller's list verbatim, duplicates included; the
validation checks only the length bound, self-reference and parent
existence (dag.go lines 65-72, 112-127). -/
theorem C8_parents_persisted_verbatim (cfg : Config) (s : Store) (r : RandSrc)
    (input : InputNode) (ps : List String) (hWF : StoreWF s)
    (hps : input.parents = some ps) (hsucc : (AddNode cfg s r input).2 = none) :
    ∃ v, getNodeInternal (AddNode cfg s r input).1 input.id = some v ∧
      v.parents = ps :=
  addNode_explicit_parents_stored cfg s r input ps hWF hps hsucc

/-- C8 witness: the duplicated list `["p", "p"]` is stored verbatim. -/
theorem C8_parents_persisted_verbatim_witness :
    ∃ v, getNodeInternal (AddNode (dagNew 2 1) [⟨"p", "", [], 1, 1⟩] ⟨[], []⟩
        ⟨"c", "", some ["p", "p"], 1, 0⟩).1 "c" = some v ∧ v.parents = ["p", "p"] :=
  C8_parents_persisted_verbatim (dagNew 2 1) [⟨"p", "", [], 1, 1⟩] ⟨[], []⟩
    ⟨"c", "", some ["p", "p"], 1, 0⟩ ["p", "p"] (by decide) rfl rfl

/-- C7 (amended): for a store satisfying the invariants (unique keys,
referential freshness of the new ID, `cumulative ≥ intrinsic` at the
parent), inserting a fresh leaf `c` whose only parent is `p` and then
deleting it restores `p`'s record — in particular its cumulative weight —
exactly, provided `c`'s normalized weight is positive. The positivity
(rather than the claim's unconditional statement) is required: with a
negative caller weight the clamp loses information and the delete
overshoots (see the counterexample). (dag.go lines 34-92, 129-186,
434-472.) -/
theorem C7_insert_delete_restores_parent (cfg : Config) (s : Store) (r : RandSrc)
    (input : InputNode) (pid : String) (pnode : Node)
    (hWF : StoreWF s)
    (hparents : input.parents = some [pid])
    (hpid : pid ≠ input.id)
    (hp : getNodeInternal s pid = some pnode)
    (hpinv : pnode.weight ≤ pnode.cumulativeWeight)
    (hfresh : getNodeInternal s input.id = none)
    (hnochild : ∀ n ∈ s, input.id ∉ n.parents)
    (hwpos : 0 < normalizeWeight cfg input.weight) :
    (AddNode cfg s r input).2 = none ∧
    (DeleteNode (AddNode cfg s r input).1 input.id).2 = none ∧
    getNodeInternal (DeleteNode (AddNode cfg s r input).1 input.id).1 pid =
      some pnode := by
  have hcard : ¬(0 < cfg.maxParents ∧
      cfg.maxParents < (([pid] : List String).length : ℤ)) := by
    rintro ⟨a, b⟩
    norm_num at b
    omega
  have hcyc : checkCycle s input.id [pid] = none := by
    unfold checkCycle
    rw [if_neg hpid, hp]
    rfl
  have hAdd : AddNode cfg s r input =
      (updateCumulativeWeights (Store.put s (mkNode cfg input [pid]))
        (mkNode cfg input [pid]) (mkNode cfg input [pid]).weight, none) := by
    rw [AddNode_with_some cfg s r input [pid] hparents]
    simp only [hfresh]
    unfold addNodeWith
    rw [if_neg hcard]
    simp only [hcyc]
  have hndw : 0 < (mkNode cfg input [pid]).weight := hwpos
  have hne1 : (mkNode cfg input [pid]).parents ≠ [] := by simp [mkNode]
  have hanyput : s.any (fun m => decide (m.id = (mkNode cfg input [pid]).id)) = false := by
    rw [List.any_eq_false]
    intro m hm
    have := (getNodeInternal_eq_none_iff s _).mp hfresh m hm
    simpa using this
  have hWF1 : StoreWF (Store.put s (mkNode cfg input [pid])) :=
    storeWF_put_absent hWF hfresh
  have hget1 := get_updateCumulativeWeights (Store.put s (mkNode cfg input [pid]))
    (mkNode cfg input [pid]) (mkNode cfg input [pid]).weight hWF1 hne1
  have hpnodeid : pnode.id = pid := (getNodeInternal_mem hp).2
  have hpidA : pnode.id ∈ ancestorClosure (Store.put s (mkNode cfg input [pid]))
      (mkNode cfg input [pid]).parents := by
    rw [hpnodeid]
    exact parents_subset_closure _ _ pid (by simp [mkNode])
  have hS1pid : getNodeInternal (updateCumulativeWeights
      (Store.put s (mkNode cfg input [pid])) (mkNode cfg input [pid])
      (mkNode cfg input [pid]).weight) pid =
      some (clampNode pnode (mkNode cfg input [pid]).weight) := by
    rw [hget1 pid, getNodeInternal_put,
      if_neg (fun hc => hpid (hc.trans rfl)), hp]
    simp only [Option.map_some']
    rw [if_pos hpidA]
  have hS1id : getNodeInternal (updateCumulativeWeights
      (Store.put s (mkNode cfg input [pid])) (mkNode cfg input [pid])
      (mkNode cfg input [pid]).weight) input.id =
      some (if (mkNode cfg input [pid]).id ∈
          ancestorClosure (Store.put s (mkNode cfg input [pid]))
            (mkNode cfg input [pid]).parents
        then clampNode (mkNode cfg input [pid]) (mkNode cfg input [pid]).weight
        else mkNode cfg input [pid]) := by
    rw [hget1 input.id, getNodeInternal_put,
      if_pos (show input.id = (mkNode cfg input [pid]).id from rfl)]
    rfl
  have hvdp : (if (mkNode cfg input [pid]).id ∈
      ancestorClosure (Store.put s (mkNode cfg input [pid]))
        (mkNode cfg input [pid]).parents
      then clampNode (mkNode cfg input [pid]) (mkNode cfg input [pid]).weight
      else mkNode cfg input [pid]).parents = [pid] := by
    split
    · rw [clampNode_parents]
      rfl
    · rfl
  have hvdw : (if (mkNode cfg input [pid]).id ∈
      ancestorClosure (Store.put s (mkNode cfg input [pid]))
        (mkNode cfg input [pid]).parents
      then clampNode (mkNode cfg input [pid]) (mkNode cfg input [pid]).weight
      else mkNode cfg input [pid]).weight = (mkNode cfg input [pid]).weight := by
    split
    · rw [clampNode_weight]
    · rfl
  have hS1map := updateCumulativeWeights_eq_map (Store.put s (mkNode cfg input [pid]))
    (mkNode cfg input [pid]) (mkNode cfg input [pid]).weight hWF1 hne1
  have hanyS1 : (updateCumulativeWeights (Store.put s (mkNode cfg input [pid]))
      (mkNode cfg input [pid]) (mkNode cfg input [pid]).weight).any
      (fun n => decide (input.id ∈ n.parents)) = false := by
    rw [List.any_eq_false]
    intro m hm
    rw [hS1map] at hm
    obtain ⟨orig, horig, rfl⟩ := List.mem_map.mp hm
    have hpar : ((fun n => if n.id ∈ ancestorClosure (Store.put s (mkNode cfg input [pid]))
        (mkNode cfg input [pid]).parents
        then clampNode n (mkNode cfg input [pid]).weight else n) orig).parents =
        orig.parents := by
      dsimp only
      split
      · rw [clampNode_parents]
      · rfl
    simp only [hpar, decide_eq_true_eq]
    rw [put_of_absent hanyput] at horig
    rcases List.mem_append.mp horig with h1 | h1
    · exact hnochild orig h1
    · rw [List.mem_singleton.mp h1]
      intro hc
      have : input.id = pid := by simpa [mkNode] using hc
      exact hpid this.symm
  have hWFS1 : StoreWF (updateCumulativeWeights (Store.put s (mkNode cfg input [pid]))
      (mkNode cfg input [pid]) (mkNode cfg input [pid]).weight) :=
    storeWF_updateCumulativeWeights _ _ hWF1
  have hDel : DeleteNode (updateCumulativeWeights (Store.put s (mkNode cfg input [pid]))
      (mkNode cfg input [pid]) (mkNode cfg input [pid]).weight) input.id =
      (Store.del (updateCumulativeWeights
        (updateCumulativeWeights (Store.put s (mkNode cfg input [pid]))
          (mkNode cfg input [pid]) (mkNode cfg input [pid]).weight)
        (if (mkNode cfg input [pid]).id ∈
            ancestorClosure (Store.put s (mkNode cfg input [pid]))
              (mkNode cfg input [pid]).parents
          then clampNode (mkNode cfg input [pid]) (mkNode cfg input [pid]).weight
          else mkNode cfg input [pid])
        (-(if (mkNode cfg input [pid]).id ∈
            ancestorClosure (Store.put s (mkNode cfg input [pid]))
              (mkNode cfg input [pid]).parents
          then clampNode (mkNode cfg input [pid]) (mkNode cfg input [pid]).weight
          else mkNode cfg input [pid]).weight)) input.id, none) := by
    unfold DeleteNode
    simp only [hS1id]
    rw [if_neg (by rw [hanyS1]; exact Bool.false_ne_true)]
  have hne2 : (if (mkNode cfg input [pid]).id ∈
      ancestorClosure (Store.put s (mkNode cfg input [pid]))
        (mkNode cfg input [pid]).parents
      then clampNode (mkNode cfg input [pid]) (mkNode cfg input [pid]).weight
      else mkNode cfg input [pid]).parents ≠ [] := by
    rw [hvdp]
    simp
  have hget2 := get_updateCumulativeWeights
    (updateCumulativeWeights (Store.put s (mkNode cfg input [pid]))
      (mkNode cfg input [pid]) (mkNode cfg input [pid]).weight)
    (if (mkNode cfg input [pid]).id ∈
        ancestorClosure (Store.put s (mkNode cfg input [pid]))
          (mkNode cfg input [pid]).parents
      then clampNode (mkNode cfg input [pid]) (mkNode cfg input [pid]).weight
      else mkNode cfg input [pid])
    (-(if (mkNode cfg input [pid]).id ∈
        ancestorClosure (Store.put s (mkNode cfg input [pid]))
          (mkNode cfg input [pid]).parents
      then clampNode (mkNode cfg input [pid]) (mkNode cfg input [pid]).weight
      else mkNode cfg input [pid]).weight)
    hWFS1 hne2
  have hpidA2 : (clampNode pnode (mkNode cfg input [pid]).weight).id ∈
      ancestorClosure (updateCumulativeWeights (Store.put s (mkNode cfg input [pid]))
        (mkNode cfg input [pid]) (mkNode cfg input [pid]).weight)
      (if (mkNode cfg input [pid]).id ∈
          ancestorClosure (Store.put s (mkNode cfg input [pid]))
            (mkNode cfg input [pid]).parents
        then clampNode (mkNode cfg input [pid]) (mkNode cfg input [pid]).weight
        else mkNode cfg input [pid]).parents := by
    rw [clampNode_id, hpnodeid]
    exact parents_subset_closure _ _ pid (by rw [hvdp]; simp)
  refine ⟨by rw [hAdd], ?_, ?_⟩
  · simp only [hAdd]
    rw [hDel]
  · simp only [hAdd]
    rw [hDel]
    simp only
    rw [getNodeInternal_del, if_neg hpid, hget2 pid, hS1pid]
    simp only [Option.map_some']
    rw [if_pos hpidA2, hvdw, clampNode_add_sub pnode (mkNode cfg input [pid]).weight
      hndw.le hpinv]

/-- C7 witness: insert leaf `c` (weight 2) under `p` and delete it; `p`'s
record is restored exactly. -/
theorem C7_insert_delete_restores_parent_witness :
    (AddNode (dagNew 2 1) [⟨"p", "", [], 1, 1⟩] ⟨[], []⟩
      ⟨"c", "", some ["p"], 2, 0⟩).2 = none ∧
    (DeleteNode (AddNode (dagNew 2 1) [⟨"p", "", [], 1, 1⟩] ⟨[], []⟩
      ⟨"c", "", some ["p"], 2, 0⟩).1 "c").2 = none ∧
    getNodeInternal (DeleteNode (AddNode (dagNew 2 1) [⟨"p", "", [], 1, 1⟩] ⟨[], []⟩
      ⟨"c", "", some ["p"], 2, 0⟩).1 "c").1 "p" = some ⟨"p", "", [], 1, 1⟩ :=
  C7_insert_delete_restores_parent (dagNew 2 1) [⟨"p", "", [], 1, 1⟩] ⟨[], []⟩
    ⟨"c", "", some ["p"], 2, 0⟩ "p" ⟨"p", "", [], 1, 1⟩
    (by decide) rfl (by decide) rfl (by decide) rfl (by decide) (by decide)

/-- C7 counterexample: the claim has no restriction on the inserted leaf's
weight. With `p` at cumulative weight 1 and a leaf `c` of caller weight -5,
the insert clamps `p` at its intrinsic weight 1 (the subtraction is lost)
and the delete then adds 5 back: `p` ends at cumulative weight 6, not the
original 1. -/
theorem C7_insert_delete_counterexample :
    (AddNode (dagNew 2 1) [⟨"p", "", [], 1, 1⟩] ⟨[], []⟩
      ⟨"c", "", some ["p"], -5, 0⟩).2 = none ∧
    (DeleteNode (AddNode (dagNew 2 1) [⟨"p", "", [], 1, 1⟩] ⟨[], []⟩
      ⟨"c", "", some ["p"], -5, 0⟩).1 "c").2 = none ∧
    getNodeInternal (DeleteNode (AddNode (dagNew 2 1) [⟨"p", "", [], 1, 1⟩] ⟨[], []⟩
      ⟨"c", "", some ["p"], -5, 0⟩).1 "c").1 "p" = some ⟨"p", "", [], 1, 6⟩ ∧
    (6 : ℚ) ≠ 1 := by
  have hcard : ¬(0 < (dagNew 2 1).maxParents ∧
      (dagNew 2 1).maxParents < ((["p"] : List String).length : ℤ)) := by
    decide
  have e1 : AddNode (dagNew 2 1) [⟨"p", "", [], 1, 1⟩] ⟨[], []⟩
      ⟨"c", "", some ["p"], -5, 0⟩ =
      ([clampNode ⟨"p", "", [], 1, 1⟩ (-5), ⟨"c", "", ["p"], -5, -5⟩], none) := by
    rw [AddNode_with_some (dagNew 2 1) _ _ _ ["p"] rfl]
    simp only [show getNodeInternal ([⟨"p", "", [], 1, 1⟩] : Store) "c" = none from rfl]
    unfold addNodeWith
    rw [if_neg hcard]
    simp only [show checkCycle ([⟨"p", "", [], 1, 1⟩] : Store) "c" ["p"] = none from rfl]
    rw [show mkNode (dagNew 2 1) ⟨"c", "", some ["p"], -5, 0⟩ ["p"] =
        (⟨"c", "", ["p"], -5, -5⟩ : Node) by
      norm_num [mkNode, normalizeWeight]]
    rfl
  have cadd : clampNode ⟨"p", "", [], 1, 1⟩ (-5) = (⟨"p", "", [], 1, 1⟩ : Node) := by
    unfold clampNode
    dsimp only
    rw [if_pos (by norm_num : (1 : ℚ) + -5 < 1)]
  rw [cadd] at e1
  have e2 : DeleteNode ([⟨"p", "", [], 1, 1⟩, ⟨"c", "", ["p"], -5, -5⟩] : Store) "c" =
      ([clampNode ⟨"p", "", [], 1, 1⟩ 5], none) := by
    unfold DeleteNode
    simp only [show getNodeInternal
      ([⟨"p", "", [], 1, 1⟩, ⟨"c", "", ["p"], -5, -5⟩] : Store) "c" =
      some ⟨"c", "", ["p"], -5, -5⟩ from rfl]
    rw [if_neg (by decide)]
    rfl
  have cdel : clampNode (⟨"p", "", [], 1, 1⟩ : Node) 5 = (⟨"p", "", [], 1, 6⟩ : Node) := by
    unfold clampNode
    dsimp only
    rw [if_neg (by norm_num : ¬ ((1 : ℚ) + 5 < 1))]
    norm_num
  simp only [e1]
  rw [e2]
  refine ⟨trivial, rfl, ?_, by norm_num⟩
  rw [cdel, getNodeInternal_cons,
    if_pos (show (⟨"p", "", [], 1, 6⟩ : Node).id = "p" from rfl)]

/-- C9: the HTTP facade never answers 400 for a missing parent, contradicting
the spec's table (and the handler's own intent): the engine formats the error
as "parent <id> does not exist" with the ID interpolated in the middle, while
the handler greps for the literal substring "parent does not exist", which
never matches; the request falls through to 500. Evaluated at the failing
input: POST /nodes with body `{id: "c", parents: ["missing"]}` on an empty
store. -/
theorem C9_parent_missing_maps_to_500 :
    (AddNode (dagNew 2 1) [] ⟨[], []⟩ ⟨"c", "", some ["missing"], 1, 0⟩).2 =
      some (.parentMissing "missing") ∧
    strContains (addErrMessage (.parentMissing "missing")) "parent does not exist" = false ∧
    handlerAddNodeStatus (dagNew 2 1) [] ⟨[], []⟩ ⟨"c", "", some ["missing"], 1, 0⟩ = 500 ∧
    (500 : ℕ) ≠ 400 := by
  refine ⟨rfl, by decide, rfl, by decide⟩
